import Mathlib

/-!
Verification development for the Python API extractor (`extract_api.py`).

The file shallowly embeds the extractor's data model and algorithms in Lean:
pure Python functions become Lean functions, the syntax-tree shapes the code
dispatches on become inductive types, Python `dict`s become association lists
with Python's insertion/overwrite semantics, and Python string operations are
modelled on character lists (`String.data`).  The runtime-built name sets
(`PYTHON_BUILTINS` from `dir(builtins)`/`typing`, `PYTHON_STDLIB_PACKAGES`
from `sys.stdlib_module_names`) depend on the interpreter, so they are
parameters of the embedded functions.

The theorems at the end of the file settle the specification claims about
the type-reference collector, dependency resolution, overload merging,
file-selection filters, and the usage-reachability analyzer.
-/

namespace ExtractApi

/-! ### Python string primitives, modelled on character lists -/

/-- Auxiliary scanner for `str.split(sep)` with a one-character separator. -/
def splitCharAux (sep : Char) : List Char → List Char → List (List Char)
  | [], acc => [acc.reverse]
  | c :: cs, acc =>
    if c = sep then acc.reverse :: splitCharAux sep cs []
    else splitCharAux sep cs (c :: acc)

/-- Python `s.split(sep)` for a single-character separator.  As in Python,
`"".split(sep) = [""]` and the result is never empty. -/
def pySplit (sep : Char) (s : String) : List String :=
  (splitCharAux sep s.data []).map String.mk

/-- Python `s.strip()`: remove leading and trailing whitespace. -/
def pyStrip (s : String) : String :=
  String.mk (((s.data.dropWhile Char.isWhitespace).reverse.dropWhile Char.isWhitespace).reverse)

/-- Python `sep.join(parts)`. -/
def pyJoin (sep : String) : List String → String
  | [] => ""
  | [x] => x
  | x :: xs => x ++ sep ++ pyJoin sep xs

/-- Python `s.startswith(p)`. -/
def pyStartsWith (p s : String) : Bool := decide (p.data <+: s.data)

/-- Python `s.endswith(p)`. -/
def pyEndsWith (p s : String) : Bool := decide (p.data <:+ s.data)

/-- Python `p in s` (substring containment, for nonempty `p`). -/
def pyContains (p s : String) : Bool := decide (p.data <:+: s.data)

/-- Python `s.split("[")[0]`: everything before the first opening bracket. -/
def bracketHead (s : String) : String := (pySplit '[' s).headD s

/-- Python `s.split(".")[0]`. -/
def dotHead (s : String) : String := (pySplit '.' s).headD s

/-! ### Python dict / set helpers (association lists)

Python 3 dicts preserve insertion order; assigning to an existing key keeps
its position, assigning to a fresh key appends.  `dlookup` is `d.get(k)`,
`dinsert` is `d[k] = v`, `dappend` is `d.setdefault(k, []).append(v)`, and
`dpop` is `d.pop(k)`. -/

def dlookup {α : Type} (m : List (String × α)) (k : String) : Option α :=
  (m.find? (fun p => p.1 == k)).map (·.2)

def dinsert {α : Type} (m : List (String × α)) (k : String) (v : α) : List (String × α) :=
  if m.any (fun p => p.1 == k) then
    m.map (fun p => if p.1 == k then (k, v) else p)
  else m ++ [(k, v)]

def dappend {α : Type} (m : List (String × List α)) (k : String) (v : α) :
    List (String × List α) :=
  if m.any (fun p => p.1 == k) then
    m.map (fun p => if p.1 == k then (p.1, p.2 ++ [v]) else p)
  else m ++ [(k, [v])]

def dpop {α : Type} (m : List (String × α)) (k : String) : List (String × α) :=
  m.filter (fun p => !(p.1 == k))

/-- Python `set.add` on a list-represented set (no duplicate insertion). -/
def setAdd (s : List String) (x : String) : List String :=
  if s.contains x then s else s ++ [x]

/-! ### Builtin / stdlib classification (`is_builtin_type`, `is_stdlib_package`)

`builtins` models the runtime-built `PYTHON_BUILTINS` set and `stdlib`
models `PYTHON_STDLIB_PACKAGES` (`sys.stdlib_module_names`). -/

/-- `is_builtin_type`: strip generic parameters, and a qualified (dotted)
name is never a builtin. -/
def is_builtin_type (builtins : List String) (type_name : String) : Bool :=
  let base_type := pyStrip (bracketHead type_name)
  if base_type.data.contains '.' then false
  else builtins.contains base_type

/-- `is_stdlib_package`: the root package (before the first dot) decides. -/
def is_stdlib_package (stdlib : List String) (package_name : String) : Bool :=
  stdlib.contains (dotHead package_name)

/-! ### Annotation syntax trees

`PyExpr` models exactly the `ast.expr` shapes `collect_types_from_annotation`
dispatches on.  A string-literal annotation is re-parsed by the external
parser (`ast.parse(..., mode='eval')`); the `strConst` node carries that
parser's result (`none` models a `SyntaxError`).  A `BinOp` whose operator is
not `BitOr`, a non-string constant, and every other node shape fall through
all branches of the Python `elif` chain, which `otherExpr` / `otherConst` /
`binOpOther` model. -/

inductive PyExpr where
  | pname (id : String)
  | pattr (value : PyExpr) (a : String)
  | subscript (value : PyExpr) (slice : PyExpr)
  | bitOr (left : PyExpr) (right : PyExpr)
  | binOpOther (left : PyExpr) (right : PyExpr)
  | strConst (s : String) (parsed : Option PyExpr)
  | otherConst
  | tupleE (elts : List PyExpr)
  | listE (elts : List PyExpr)
  | otherExpr

/-- Auxiliary for `_get_attribute_name`: the dotted components of an
`Attribute` chain, base first, or `none` when the innermost value is not a
plain name. -/
def attrParts : PyExpr → Option (List String)
  | .pname id => some [id]
  | .pattr v a => (attrParts v).map (· ++ [a])
  | _ => none

/-- `_get_attribute_name`: full dotted name from an `Attribute` node. -/
def getAttrName (e : PyExpr) : Option String :=
  (attrParts e).map (pyJoin ".")

mutual
/-- `collect_types_from_annotation`, returning the references added (the
Python version adds them into a mutable set; list membership models set
membership).  The `Subscript` case of the source first recurses into the
base and then either iterates a `Tuple` slice's elements or recurses into
the slice directly; iterating a `Tuple`'s elements is exactly the `Tuple`
case, so the slice is handled by one recursive call here. -/
def collectTypes (builtins : List String) : PyExpr → List String
  | .pname id => if is_builtin_type builtins id then [] else [id]
  | .pattr v a =>
    (match getAttrName (.pattr v a) with
     | some full_name =>
       if full_name ≠ "" && !(is_builtin_type builtins full_name) then [full_name] else []
     | none => [])
  | .subscript v s => collectTypes builtins v ++ collectTypes builtins s
  | .bitOr l r => collectTypes builtins l ++ collectTypes builtins r
  | .binOpOther _ _ => []
  | .strConst _ (some parsed) => collectTypes builtins parsed
  | .strConst _ none => []
  | .otherConst => []
  | .tupleE elts => collectTypesList builtins elts
  | .listE elts => collectTypesList builtins elts
  | .otherExpr => []

def collectTypesList (builtins : List String) : List PyExpr → List String
  | [] => []
  | e :: es => collectTypes builtins e ++ collectTypesList builtins es
end

/-- `collect_types_from_annotation` with its `None` guard at entry. -/
def collect_types_from_ann (builtins : List String) : Option PyExpr → List String
  | none => []
  | some ann => collectTypes builtins ann

/-! ### The type-reference collector -/

/-- `TypeReferenceCollector` state.  The Python sets / dicts are lists with
membership semantics as documented above. -/
structure TypeReferenceCollector where
  refs : List String
  defined_types : List String
  resolved_packages : List (String × String)
  import_map : List (String × String)

def TypeReferenceCollector.empty : TypeReferenceCollector :=
  { refs := [], defined_types := [], resolved_packages := [], import_map := [] }

/-- `add_defined_type`: register a locally defined type, generic parameters
stripped. -/
def add_defined_type (c : TypeReferenceCollector) (name : String) : TypeReferenceCollector :=
  { c with defined_types := c.defined_types ++ [bracketHead name] }

/-- `collect_from_annotation`: run the collector on one annotation tree. -/
def collect_from_ann (builtins : List String) (c : TypeReferenceCollector)
    (ann : Option PyExpr) : TypeReferenceCollector :=
  { c with refs := c.refs ++ collect_types_from_ann builtins ann }

/-- Import statements as scanned by `collect_imports` (via `ast.walk`, so
imports inside `TYPE_CHECKING` blocks are included in the statement list).
Each alias is a `(name, asname)` pair. -/
inductive ImportStmt where
  | importFrom (module : Option String) (names : List (String × Option String))
  | importPlain (names : List (String × Option String))

/-- One `ast.ImportFrom` / `ast.Import` statement applied to the import map. -/
def applyImportStmt (builtins : List String) (m : List (String × String)) :
    ImportStmt → List (String × String)
  | .importFrom module names =>
    (match module with
     | none => m
     | some mod =>
       if mod = "" || mod = "__future__" then m
       else names.foldl (fun m al =>
         let nm := al.2.getD al.1
         if nm ≠ "*" && !(is_builtin_type builtins nm) then dinsert m nm mod else m) m)
  | .importPlain names =>
    names.foldl (fun m al =>
      let nm := al.2.getD al.1
      if !(is_builtin_type builtins nm) then dinsert m nm al.1 else m) m

/-- `collect_imports` over a module's import statements. -/
def collect_imports (builtins : List String) (c : TypeReferenceCollector)
    (stmts : List ImportStmt) : TypeReferenceCollector :=
  { c with import_map := stmts.foldl (applyImportStmt builtins) c.import_map }

/-- `get_external_refs`: references that are neither locally defined nor
builtins. -/
def get_external_refs (builtins : List String) (c : TypeReferenceCollector) : List String :=
  c.refs.filter (fun name =>
    !(c.defined_types.contains (bracketHead name)) && !(is_builtin_type builtins name))

/-- The dotted-prefix candidates of `resolve_package`'s fallback loop:
`".".join(parts[:i])` for `i` from `len(parts) - 1` down to `1` (every
proper dotted prefix, longest first). -/
def prefixCandidates (type_name : String) : List String :=
  let parts := pySplit '.' type_name
  ((List.range' 1 (parts.length - 1)).reverse).map (fun i => pyJoin "." (parts.take i))

/-- The dotted-name fallback of `resolve_package` (with its cache write). -/
def resolvePackageDotted (c : TypeReferenceCollector) (type_name : String)
    (installed : List String) : Option String × TypeReferenceCollector :=
  if type_name.data.contains '.' then
    match (prefixCandidates type_name).find? (fun pkg => installed.contains pkg) with
    | some pkg =>
      (some pkg, { c with resolved_packages := dinsert c.resolved_packages type_name pkg })
    | none => (none, c)
  else (none, c)

/-- `resolve_package`: resolved-name cache, then the import map (accepting
the imported module's root package only when installed), then the
dotted-name prefix fallback. -/
def resolve_package (c : TypeReferenceCollector) (type_name : String)
    (installed : List String) : Option String × TypeReferenceCollector :=
  match dlookup c.resolved_packages type_name with
  | some pkg => (some pkg, c)
  | none =>
    let base_name := bracketHead type_name
    match dlookup c.import_map base_name with
    | some module_path =>
      let root_pkg := dotHead module_path
      if installed.contains root_pkg then
        (some root_pkg,
         { c with resolved_packages := dinsert c.resolved_packages type_name root_pkg })
      else resolvePackageDotted c type_name installed
    | none => resolvePackageDotted c type_name installed

/-! ### Collector operation traces

During one extraction pass the global collector receives a sequence of
`add_defined_type`, `collect_from_annotation` and `collect_imports` calls
(its state never feeds back into extraction results).  A pass is modelled as
the list of those calls run from the freshly cleared collector. -/

inductive CollectorOp where
  | addDefined (name : String)
  | collectAnn (ann : Option PyExpr)
  | collectImports (stmts : List ImportStmt)

def applyOp (builtins : List String) (c : TypeReferenceCollector) :
    CollectorOp → TypeReferenceCollector
  | .addDefined n => add_defined_type c n
  | .collectAnn a => collect_from_ann builtins c a
  | .collectImports ss => collect_imports builtins c ss

/-- One extraction pass: run a trace of collector calls from the empty
(freshly `clear()`ed) collector. -/
def runOps (builtins : List String) (ops : List CollectorOp) : TypeReferenceCollector :=
  ops.foldl (applyOp builtins) TypeReferenceCollector.empty

/-! ### Symbol extraction (`extract_function`, `extract_class`)

The extraction functions are embedded purely: their only side effects in the
source are calls into the global type collector (`collect_from_annotation`,
`add_defined_type`), whose state never influences extraction results; those
calls are modelled separately by `CollectorOp` traces. -/

mutual
/-- `ast.unparse` on the expression shapes this embedding covers (the
source only unparses annotation and base-class expressions). -/
def pyUnparse : PyExpr → String
  | .pname id => id
  | .pattr v a => pyUnparse v ++ "." ++ a
  | .subscript v s => pyUnparse v ++ "[" ++ pyUnparse s ++ "]"
  | .bitOr l r => pyUnparse l ++ " | " ++ pyUnparse r
  | .binOpOther l r => pyUnparse l ++ " ? " ++ pyUnparse r
  | .strConst s _ => "\x27" ++ s ++ "\x27"
  | .otherConst => "..."
  | .tupleE elts => pyUnparseList elts
  | .listE elts => "[" ++ pyUnparseList elts ++ "]"
  | .otherExpr => ""

def pyUnparseList : List PyExpr → String
  | [] => ""
  | [e] => pyUnparse e
  | e :: es => pyUnparse e ++ ", " ++ pyUnparseList es
end

/-- Python `s.split(sep)` for a multi-character separator (used for
`sig.split(" -> ")`). -/
def splitOnStrAux (sep : List Char) (hsep : sep ≠ []) :
    List Char → List Char → List (List Char)
  | [], acc => [acc.reverse]
  | c :: cs, acc =>
    if sep.isPrefixOf (c :: cs) then
      acc.reverse :: splitOnStrAux sep hsep ((c :: cs).drop sep.length) []
    else splitOnStrAux sep hsep cs (c :: acc)
termination_by l _ => l.length
decreasing_by
  · have h1 : 1 ≤ sep.length := by
      cases sep with
      | nil => exact absurd rfl hsep
      | cons a as => simp
    simp only [List.length_drop, List.length_cons]
    omega
  · simp only [List.length_cons]
    omega

def splitOnStr (sep : String) (s : String) : List String :=
  if h : sep.data = [] then [s]
  else (splitOnStrAux sep.data h s.data []).map String.mk

/-- `get_docstring`: first line of a docstring, truncated to 150 characters.
The argument models `ast.get_docstring(node)`. -/
def get_docstring (raw : Option String) : Option String :=
  match raw with
  | none => none
  | some d =>
    if d = "" then none
    else
      let first_line := pyStrip ((pySplit '\n' d).headD d)
      some (if 150 < first_line.data.length
            then String.mk (first_line.data.take 150) ++ "..."
            else first_line)

/-- Python truthiness of an optional string (`if doc:`): absent and empty
are both falsy. -/
def truthy : Option String → Option String
  | none => none
  | some s => if s = "" then none else some s

/-- Decorators as `extract_function` / `_is_overload_decorated` inspect
them: a plain name, an attribute access (only its final attribute matters),
or anything else. -/
inductive PyDec where
  | decName (id : String)
  | decAttr (a : String)
  | decOther

/-- A function argument: name and optional annotation. -/
structure PyArg where
  arg : String
  ann : Option PyExpr

/-- An `ast.FunctionDef` / `ast.AsyncFunctionDef` as the extractor reads it.
`docstring` models `ast.get_docstring(node)`'s raw result. -/
structure PyFunctionDef where
  name : String
  args : List PyArg
  vararg : Option PyArg
  kwarg : Option PyArg
  returns : Option PyExpr
  docstring : Option String
  isAsync : Bool
  decorator_list : List PyDec

/-- The result dict of `extract_function`.  Optional JSON keys become
`Option` / `Bool` fields (a missing key is `none` / `false`). -/
structure FuncInfo where
  name : String
  sig : String
  ret : Option String
  doc : Option String
  isAsync : Bool
  entryPoint : Bool
  reExportedFrom : Option String
  isClassmethod : Bool
  isStaticmethod : Bool
  isProp : Bool
  isOverload : Bool
deriving DecidableEq

/-- One argument's contribution to the signature string. -/
def argString (pre : String) (a : PyArg) : String :=
  match a.ann with
  | some ann => pre ++ a.arg ++ ": " ++ pyUnparse ann
  | none => pre ++ a.arg

/-- `extract_function`.  When called for a class member the source passes no
entry-point / re-export data (`None` defaults), modelled by `[]`. -/
def extract_function (entry_syms : List String)
    (external_reexports : List (String × String)) (f : PyFunctionDef) : FuncInfo :=
  let args := f.args.map (argString "")
  let args := args ++ (match f.vararg with
    | some va => [argString "*" va]
    | none => [])
  let args := args ++ (match f.kwarg with
    | some kw => [argString "**" kw]
    | none => [])
  { name := f.name
    sig := pyJoin ", " args
    ret := truthy ((f.returns).map pyUnparse)
    doc := truthy (get_docstring f.docstring)
    isAsync := f.isAsync
    entryPoint := entry_syms.contains f.name
    reExportedFrom := dlookup external_reexports f.name
    isClassmethod := f.decorator_list.any (fun d => match d with
      | .decName i => i == "classmethod"
      | _ => false)
    isStaticmethod := f.decorator_list.any (fun d => match d with
      | .decName i => i == "staticmethod"
      | _ => false)
    isProp := f.decorator_list.any (fun d => match d with
      | .decName i => i == "property"
      | _ => false)
    isOverload := false }

/-- `_is_overload_decorated`. -/
def is_overload_decorated (f : PyFunctionDef) : Bool :=
  f.decorator_list.any (fun d => match d with
    | .decName i => i == "overload"
    | .decAttr a => a == "overload"
    | .decOther => false)

/-- A property entry of the class result. -/
structure PropInfo where
  name : String
  type : Option String
  doc : Option String
deriving DecidableEq

/-- The result dict of `extract_class`. -/
structure ClassInfo where
  name : String
  base : Option String
  doc : Option String
  entryPoint : Bool
  reExportedFrom : Option String
  methods : List FuncInfo
  properties : List PropInfo
deriving DecidableEq

/-- A statement of a class body as `extract_class` reads it. -/
inductive ClassBodyItem where
  | funcDef (f : PyFunctionDef)
  | otherStmt

/-- An `ast.ClassDef` as the extractor reads it. -/
structure PyClassDef where
  name : String
  bases : List PyExpr
  docstring : Option String
  body : List ClassBodyItem

/-- Base-class expressions the source unparses (`Name`, `Attribute`,
`Subscript`). -/
def isBaseShape : PyExpr → Bool
  | .pname _ => true
  | .pattr _ _ => true
  | .subscript _ _ => true
  | _ => false

/-- The visibility filter of the class-member loop: skip single-underscore
privates (keeping dunders) and private dunders. -/
def skipMemberName (n : String) : Bool :=
  (pyStartsWith "_" n && !(pyStartsWith "__" n)) ||
  (pyStartsWith "__" n && !(pyEndsWith "__" n))

/-- The mutable loop state of `extract_class`'s member scan. -/
structure ExtractClassState where
  methods : List FuncInfo
  properties : List PropInfo
  overload_map : List (String × List FuncInfo)

/-- The docstring-inheritance and overload-marking applied to each collected
overload when an implementation body is reached: an undocumented overload
receives the implementation's docstring, and every emitted overload is
marked. -/
def markOverloadInherit (impl_doc : Option String) (ol : FuncInfo) : FuncInfo :=
  let ol := if ol.doc.isNone && impl_doc.isSome then { ol with doc := impl_doc } else ol
  { ol with isOverload := true }

/-- One iteration of `extract_class`'s member loop. -/
def extractClassStep (st : ExtractClassState) (item : ClassBodyItem) : ExtractClassState :=
  match item with
  | .otherStmt => st
  | .funcDef f =>
    if skipMemberName f.name then st
    else if is_overload_decorated f then
      { st with overload_map := dappend st.overload_map f.name (extract_function [] [] f) }
    else
      let func_info := extract_function [] [] f
      if func_info.isProp then
        let func_info := { func_info with isProp := false }
        let prop_type := match func_info.ret with
          | some r => some r
          | none =>
            if pyContains " -> " func_info.sig
            then some ((splitOnStr " -> " func_info.sig).getLastD func_info.sig)
            else none
        { st with properties := st.properties ++
            [{ name := func_info.name, type := prop_type, doc := func_info.doc }] }
      else
        match dlookup st.overload_map f.name with
        | some overloads =>
          { st with
              methods := st.methods ++ overloads.map (markOverloadInherit func_info.doc)
              overload_map := dpop st.overload_map f.name }
        | none => { st with methods := st.methods ++ [func_info] }

/-- `extract_class`. -/
def extract_class (entry_syms : List String)
    (external_reexports : List (String × String)) (node : PyClassDef) : ClassInfo :=
  let bases := (node.bases.filter isBaseShape).map pyUnparse
  let st := node.body.foldl extractClassStep
    { methods := [], properties := [], overload_map := [] }
  let methods := st.methods ++
    st.overload_map.flatMap (fun p => p.2.map (fun ol => { ol with isOverload := true }))
  { name := node.name
    base := if bases ≠ [] then some (pyJoin ", " bases) else none
    doc := truthy (get_docstring node.docstring)
    entryPoint := entry_syms.contains node.name
    reExportedFrom := dlookup external_reexports node.name
    methods := methods
    properties := st.properties }

/-! ### File-selection filters

`extract_package` filters by substring tests on the whole path string plus a
leading-underscore rule on the file name; `analyze_usage`'s sample scan
filters by path-component equality plus test-file naming.  A path is
modelled as its components; the path string joins them with `/`. -/

/-- The substring skip list of `extract_package` (applied only outside
`TestFixtures` paths). -/
def extractionSkipPatterns : List String :=
  ["__pycache__", "venv", ".venv", "test_", "_test.py", "/tests/", "\\tests\\",
   ".tox", ".nox", "site-packages", "/build/", "\\build\\", "/dist/", "\\dist\\",
   ".eggs", ".egg-info", "node_modules"]

/-- `extract_package`'s per-file exclusion. -/
def extractionExcludes (parts : List String) : Bool :=
  let path_str := pyJoin "/" parts
  let nm := parts.getLastD ""
  (!(pyContains "TestFixtures" path_str) &&
     extractionSkipPatterns.any (fun pat => pyContains pat path_str)) ||
  (pyStartsWith "_" nm && nm ≠ "__init__.py")

/-- `analyze_usage`'s per-sample-file exclusion. -/
def usageExcludes (parts : List String) : Bool :=
  let nm := parts.getLastD ""
  (parts.any (fun p => p == "__pycache__" || p == "venv" || p == ".venv")) ||
  (pyStartsWith "test_" nm || pyEndsWith "_test.py" nm)

/-! ### Usage analysis: API model and reference graph

`analyze_usage` consumes the extracted API model (the JSON produced by
`extract_package`), which is exactly the `ClassInfo` / `FuncInfo` records
plus module grouping. -/

/-- One module of the API model. -/
structure ModuleInfo where
  name : String
  classes : List ClassInfo
  functions : List FuncInfo

/-- The API model consumed by `analyze_usage`. -/
structure Api where
  modules : List ModuleInfo

/-- `cls.get("name", "").split("[")[0]`, the key under which `analyze_usage`
tracks a class. -/
def classKey (cls : ClassInfo) : String := bracketHead cls.name

def allClasses (api : Api) : List ClassInfo := api.modules.flatMap (·.classes)

def allTypeNames (api : Api) : List String := (allClasses api).map classKey

/-- `re.findall(r"[A-Za-z_]\w*", text)` state for `tokenizeIdents`: the
in-progress token (reversed) if any. -/
def tokenizeGo : Option (List Char) → List Char → List String
  | none, [] => []
  | some t, [] => [String.mk t.reverse]
  | none, c :: cs =>
    if c.isAlpha || c == '_' then tokenizeGo (some [c]) cs else tokenizeGo none cs
  | some t, c :: cs =>
    if c.isAlphanum || c == '_' then tokenizeGo (some (c :: t)) cs
    else String.mk t.reverse :: tokenizeGo none cs

/-- `_tokenize_identifiers`: maximal identifier tokens of a string. -/
def tokenizeIdents (s : String) : List String := tokenizeGo none s.data

/-- `get_referenced_types`: type names referenced by a class through its
base, method signatures / return types, and property types (whole-token
matching). -/
def get_referenced_types (cls : ClassInfo) (all_type_names : List String) : List String :=
  let baseRefs := match cls.base with
    | some b =>
      if b ≠ "" then
        (if all_type_names.contains (bracketHead b) then [bracketHead b] else [])
      else []
    | none => []
  let methodRefs := cls.methods.flatMap (fun m =>
    (tokenizeIdents m.sig ++ tokenizeIdents (m.ret.getD "")).filter
      (fun t => all_type_names.contains t))
  let propRefs := cls.properties.flatMap (fun p =>
    (tokenizeIdents ((p.type).getD "")).filter (fun t => all_type_names.contains t))
  baseRefs ++ methodRefs ++ propRefs

/-- The `references` dict: class key to referenced type names. -/
def referencesOf (api : Api) : List (String × List String) :=
  (allClasses api).foldl
    (fun m cls => dinsert m (classKey cls) (get_referenced_types cls (allTypeNames api))) []

/-- The `referenced_by` in-degree counter. -/
def referencedByOf (references : List (String × List String)) : List (String × Nat) :=
  references.foldl
    (fun m p => p.2.foldl (fun m r => dinsert m r ((dlookup m r).getD 0 + 1)) m) []

/-- `operation_types`: keys of classes that have methods. -/
def operationTypes (api : Api) : List String :=
  (allClasses api).filterMap (fun cls =>
    if !cls.methods.isEmpty then some (classKey cls) else none)

/-- The root-class predicate of `analyze_usage`. -/
def isRootClass (rb : List (String × Nat)) (references : List (String × List String))
    (ops : List String) (cls : ClassInfo) : Bool :=
  (cls.entryPoint && !cls.methods.isEmpty) ||
  ((dlookup rb (classKey cls)).isNone &&
    (!cls.methods.isEmpty ||
      ((dlookup references (classKey cls)).getD []).any (fun ref => ops.contains ref)))

/-- The root classes, with the structural fallback when none qualify. -/
def rootClassesOf (api : Api) : List ClassInfo :=
  let references := referencesOf api
  let rb := referencedByOf references
  let ops := operationTypes api
  let roots := (allClasses api).filter (isRootClass rb references ops)
  if roots.isEmpty then
    (allClasses api).filter (fun cls =>
      !cls.methods.isEmpty ||
        ((dlookup references (classKey cls)).getD []).any (fun ref => ops.contains ref))
  else roots

/-- The `derived_by_base` dict: stripped base name to the classes declaring
that base. -/
def derivedByBase (api : Api) : List (String × List ClassInfo) :=
  (allClasses api).foldl (fun m cls =>
    match cls.base with
    | some b => if b ≠ "" then dappend m (bracketHead b) cls else m
    | none => m) []

/-! ### Usage analysis: BFS reachability

The `while queue` loop of `analyze_usage` terminates because every name it
enqueues is new to `reachable` and drawn from the finite pool of names
occurring in the reference graph and the derived-class tables; the measure
below is that pool's remaining count, then the queue length. -/

/-- The `if name not in reachable: reachable.add(name); queue.append(name)`
step, applied to a list of candidate names. -/
def enqueueNew : List String → List String → List String → List String × List String
  | r, q, [] => (r, q)
  | r, q, n :: rest =>
    if n ∈ r then enqueueNew r q rest
    else enqueueNew (r ++ [n]) (q ++ [n]) rest

theorem enqueueNew_mono {x : String} (l r q : List String) (hx : x ∈ r) :
    x ∈ (enqueueNew r q l).1 := by
  induction l generalizing r q with
  | nil => exact hx
  | cons y ys ih =>
    by_cases hy : y ∈ r
    · simpa only [enqueueNew, if_pos hy] using ih _ _ hx
    · simpa only [enqueueNew, if_neg hy] using ih _ _ (List.mem_append_left _ hx)

theorem enqueueNew_mem_of_mem_arg {x : String} (l r q : List String) (hx : x ∈ l) :
    x ∈ (enqueueNew r q l).1 := by
  induction l generalizing r q with
  | nil => cases hx
  | cons y ys ih =>
    by_cases hy : y ∈ r
    · rcases List.mem_cons.mp hx with rfl | hx'
      · simpa only [enqueueNew, if_pos hy] using enqueueNew_mono ys r q hy
      · simpa only [enqueueNew, if_pos hy] using ih _ _ hx'
    · rcases List.mem_cons.mp hx with rfl | hx'
      · simpa only [enqueueNew, if_neg hy] using
          enqueueNew_mono ys (r ++ [x]) (q ++ [x])
            (List.mem_append_right _ (List.mem_singleton.mpr rfl))
      · simpa only [enqueueNew, if_neg hy] using ih _ _ hx'

theorem enqueueNew_cases (l r q : List String) :
    enqueueNew r q l = (r, q) ∨
      ∃ n, n ∈ l ∧ n ∉ r ∧ n ∈ (enqueueNew r q l).1 := by
  induction l generalizing r q with
  | nil => left; rfl
  | cons x xs ih =>
    by_cases hx : x ∈ r
    · rcases ih r q with h | ⟨n, hn1, hn2, hn3⟩
      · left; simpa only [enqueueNew, if_pos hx] using h
      · right
        refine ⟨n, List.mem_cons_of_mem _ hn1, hn2, ?_⟩
        simpa only [enqueueNew, if_pos hx] using hn3
    · right
      refine ⟨x, List.mem_cons_self _ _, hx, ?_⟩
      simp only [enqueueNew, if_neg hx]
      exact enqueueNew_mono xs _ _ (List.mem_append_right _ (List.mem_singleton.mpr rfl))

theorem enqueueNew_fst_subset (l r q : List String) :
    ∀ x, x ∈ (enqueueNew r q l).1 → x ∈ r ∨ x ∈ l := by
  induction l generalizing r q with
  | nil => intro x hx; exact Or.inl hx
  | cons y ys ih =>
    intro x hx
    by_cases hy : y ∈ r
    · rw [enqueueNew, if_pos hy] at hx
      rcases ih _ _ x hx with h | h
      · exact Or.inl h
      · exact Or.inr (List.mem_cons_of_mem _ h)
    · rw [enqueueNew, if_neg hy] at hx
      rcases ih _ _ x hx with h | h
      · rcases List.mem_append.mp h with h' | h'
        · exact Or.inl h'
        · exact Or.inr (List.mem_cons.mpr (Or.inl (List.mem_singleton.mp h')))
      · exact Or.inr (List.mem_cons_of_mem _ h)

theorem enqueueNew_snd_grows (l r q : List String) :
    ∀ x, x ∈ q → x ∈ (enqueueNew r q l).2 := by
  induction l generalizing r q with
  | nil => intro x hx; exact hx
  | cons y ys ih =>
    intro x hx
    by_cases hy : y ∈ r
    · rw [enqueueNew, if_pos hy]; exact ih _ _ x hx
    · rw [enqueueNew, if_neg hy]; exact ih _ _ x (List.mem_append_left _ hx)

theorem enqueueNew_new_mem_snd (l r q : List String) :
    ∀ x, x ∈ (enqueueNew r q l).1 → x ∉ r → x ∈ (enqueueNew r q l).2 := by
  induction l generalizing r q with
  | nil => intro x hx hnx; exact absurd hx hnx
  | cons y ys ih =>
    intro x hx hnx
    by_cases hy : y ∈ r
    · rw [enqueueNew, if_pos hy] at hx ⊢
      exact ih _ _ x hx hnx
    · rw [enqueueNew, if_neg hy] at hx ⊢
      by_cases hxy : x ∈ r ++ [y]
      · exact enqueueNew_snd_grows ys _ _ x
          (by rcases List.mem_append.mp hxy with h | h
              · exact absurd h hnx
              · exact List.mem_append_right _ h)
      · exact ih _ _ x hx hxy

/-- The stripped, nonempty name under which a derived class is enqueued
(the `if child_name and child_name not in reachable` guard's first half). -/
def childNameOf (child : ClassInfo) : Option String :=
  if bracketHead child.name ≠ "" then some (bracketHead child.name) else none

/-- What one dequeued name contributes to the traversal: nothing when no
class matches it (the `if not current_cls: continue` guard), otherwise its
forward reference edges followed by its derived classes' names. -/
def bfsStepList (all_classes : List ClassInfo) (references : List (String × List String))
    (derived : List (String × List ClassInfo)) (current : String) : List String :=
  if ((all_classes.find? (fun cls => classKey cls == current)).isSome : Bool) then
    (dlookup references current).getD [] ++
      ((dlookup derived current).getD []).filterMap childNameOf
  else []

/-- The finite pool of names the BFS can ever enqueue. -/
def bfsUniverse (references : List (String × List String))
    (derived : List (String × List ClassInfo)) : List String :=
  references.flatMap (·.2) ++ derived.flatMap (fun p => p.2.filterMap childNameOf)

theorem mem_dlookup_flat {α : Type} (m : List (String × List α)) (k : String) (x : α)
    (hx : x ∈ (dlookup m k).getD []) : ∃ p, p ∈ m ∧ x ∈ p.2 := by
  unfold dlookup at hx
  cases hfind : m.find? (fun p => p.1 == k) with
  | none => rw [hfind] at hx; cases hx
  | some p =>
    rw [hfind] at hx
    simp only [Option.map_some', Option.getD_some] at hx
    exact ⟨p, List.mem_of_find?_eq_some hfind, hx⟩

theorem bfsStepList_subset (all_classes : List ClassInfo)
    (references : List (String × List String)) (derived : List (String × List ClassInfo))
    (current : String) :
    ∀ x, x ∈ bfsStepList all_classes references derived current →
      x ∈ bfsUniverse references derived := by
  intro x hx
  unfold bfsStepList at hx
  by_cases hg : ((all_classes.find? (fun cls => classKey cls == current)).isSome : Bool)
  · rw [if_pos hg] at hx
    rcases List.mem_append.mp hx with h | h
    · rcases mem_dlookup_flat references current x h with ⟨p, hp, hxp⟩
      exact List.mem_append_left _ (List.mem_flatMap.mpr ⟨p, hp, hxp⟩)
    · rcases List.mem_filterMap.mp h with ⟨child, hchild, hcn⟩
      rcases mem_dlookup_flat derived current child hchild with ⟨p, hp, hcp⟩
      exact List.mem_append_right _
        (List.mem_flatMap.mpr ⟨p, hp, List.mem_filterMap.mpr ⟨child, hcp, hcn⟩⟩)
  · rw [if_neg hg] at hx; cases hx

theorem bfs_card_decrease (U r r' : List String) (n : String)
    (hmono : ∀ x, x ∈ r → x ∈ r') (hnU : n ∈ U) (hnr : n ∉ r) (hnr' : n ∈ r') :
    (U.toFinset.filter (fun u => u ∉ r')).card <
      (U.toFinset.filter (fun u => u ∉ r)).card := by
  apply Finset.card_lt_card
  constructor
  · intro x hx
    simp only [Finset.mem_filter] at hx ⊢
    exact ⟨hx.1, fun hxr => hx.2 (hmono x hxr)⟩
  · intro hsub
    have hn : n ∈ U.toFinset.filter (fun u => u ∉ r) := by
      simp only [Finset.mem_filter, List.mem_toFinset]
      exact ⟨hnU, hnr⟩
    have := hsub hn
    simp only [Finset.mem_filter] at this
    exact this.2 hnr'

/-- The `while queue` loop of the reachability traversal. -/
def bfsLoop (all_classes : List ClassInfo) (references : List (String × List String))
    (derived : List (String × List ClassInfo)) :
    List String → List String → List String
  | r, [] => r
  | r, c :: rest =>
    bfsLoop all_classes references derived
      (enqueueNew r rest (bfsStepList all_classes references derived c)).1
      (enqueueNew r rest (bfsStepList all_classes references derived c)).2
termination_by r q =>
  (((bfsUniverse references derived).toFinset.filter (fun u => u ∉ r)).card, q.length)
decreasing_by
  rcases enqueueNew_cases (bfsStepList all_classes references derived c) r rest with
    heq | ⟨n, hn1, hn2, hn3⟩
  · rw [heq]
    exact Prod.Lex.right _ (Nat.lt_succ_self _)
  · exact Prod.Lex.left _ _
      (bfs_card_decrease _ _ _ n (fun x hx => enqueueNew_mono _ _ _ hx)
        (bfsStepList_subset all_classes references derived c n hn1) hn2 hn3)

/-- The reachable class-key set of `analyze_usage`: the root seeding loop
followed by the BFS. -/
def computeReachable (api : Api) : List String :=
  bfsLoop (allClasses api) (referencesOf api) (derivedByBase api)
    (enqueueNew [] [] ((rootClassesOf api).map classKey)).1
    (enqueueNew [] [] ((rootClassesOf api).map classKey)).2

/-! ### Usage analysis: client methods and type maps -/

/-- `usage_classes`: reachable classes that have methods. -/
def usageClasses (api : Api) (reach : List String) : List ClassInfo :=
  (allClasses api).filter (fun cls => reach.contains (classKey cls) && !cls.methods.isEmpty)

/-- The `client_methods` dict: unstripped class name to its method-name
set. -/
def clientMethodsOf (api : Api) : List (String × List String) :=
  (usageClasses api (computeReachable api)).foldl (fun m cls =>
    let methods := (cls.methods.map (·.name)).eraseDups
    if methods ≠ [] then dinsert m cls.name methods else m) []

/-- `_unwrap_async_return_type`. -/
def unwrapAsyncRet (rt : String) : String :=
  match ["Awaitable", "Coroutine", "AsyncIterator", "AsyncIterable"].find?
      (fun w => pyStartsWith (w ++ "[") rt && pyEndsWith "]" rt) with
  | some w =>
    let inner := String.mk ((rt.data.drop (w.data.length + 1)).dropLast)
    if w == "Coroutine" then
      let ps := pySplit ',' inner
      if 2 ≤ ps.length then pyStrip (ps.getLastD inner) else inner
    else inner
  | none => rt

/-- `_build_method_return_type_map`. -/
def methodReturnTypeMap (api : Api) (cm : List (String × List String)) :
    List (String × String) :=
  api.modules.foldl (fun m mod =>
    mod.classes.foldl (fun m cls =>
      cls.methods.foldl (fun m meth =>
        match truthy meth.ret with
        | some r =>
          let unwrapped := pyStrip (bracketHead (unwrapAsyncRet r))
          if (dlookup cm unwrapped).isSome then
            dinsert m (cls.name ++ "." ++ meth.name) unwrapped
          else m
        | none => m) m) m) []

/-- `_build_function_return_type_map`. -/
def functionReturnTypeMap (api : Api) (cm : List (String × List String)) :
    List (String × String) :=
  api.modules.foldl (fun m mod =>
    mod.functions.foldl (fun m fn =>
      match truthy fn.ret with
      | some r =>
        let unwrapped := pyStrip (bracketHead (unwrapAsyncRet r))
        if (dlookup cm unwrapped).isSome then dinsert m fn.name unwrapped else m
      | none => m) m) []

/-- `_build_property_type_map`. -/
def propertyTypeMap (api : Api) (cm : List (String × List String)) :
    List (String × String) :=
  api.modules.foldl (fun m mod =>
    mod.classes.foldl (fun m cls =>
      cls.properties.foldl (fun m p =>
        match truthy p.type with
        | some t =>
          let base_type := pyStrip (bracketHead t)
          if (dlookup cm base_type).isSome then
            dinsert m (cls.name ++ "." ++ p.name) base_type
          else m
        | none => m) m) m) []

/-- The `_class_bases` dict: client class name to its client-typed declared
bases (comma-split, stripped). -/
def classBasesOf (api : Api) (cm : List (String × List String)) :
    List (String × List String) :=
  api.modules.foldl (fun m mod =>
    mod.classes.foldl (fun m cls =>
      let base_str := (cls.base).getD ""
      if (dlookup cm cls.name).isSome && base_str ≠ "" then
        let bases := (pySplit ',' base_str).filterMap (fun b =>
          if (dlookup cm (pyStrip b)).isSome then some (pyStrip b) else none)
        if bases ≠ [] then dinsert m cls.name bases else m
      else m) m) []

/-! ### Usage analysis: sample-file scanning

A sample file's syntax tree is modelled by the sequence of nodes `ast.walk`
yields on it (both passes of the source walk the same tree, hence the same
sequence), restricted to the node shapes `analyze_usage` dispatches on.
A file that fails to parse carries `none`. -/

/-- Sample-code expressions as the receiver / right-hand-side analysis reads
them. -/
inductive SExpr where
  | sname (id : String)
  | sattr (value : SExpr) (a : String)
  | scall (func : SExpr)
  | sother

/-- Walk-sequence nodes of a sample tree. -/
inductive SampleNode where
  | assignNode (targets : List SExpr) (value : SExpr)
  | annAssignNode (target : SExpr) (ann : SExpr) (value : Option SExpr)
  | callNode (func : SExpr) (lineno : Nat)
  | awaitNode
  | asyncWithNode
  | asyncForNode
  | tryNode
  | otherNode

/-- `_expr_to_str`. -/
def exprToStr : SExpr → String
  | .sname id => id
  | .sattr v a => exprToStr v ++ "." ++ a
  | _ => "?"

/-- `_assign_var_type`. -/
def assignVarType (target : SExpr) (type_name : String) (m : List (String × String)) :
    List (String × String) :=
  match target with
  | .sname id => dinsert m id type_name
  | .sattr v a => dinsert m (exprToStr v ++ "." ++ a) type_name
  | _ => m

/-- `_extract_client_type_from_annotation`. -/
def extractClientTypeFromAnn (clients : List String) : SExpr → Option String
  | .sname id => if clients.contains id then some id else none
  | .sattr _ a => if clients.contains a then some a else none
  | _ => none

/-- `_infer_type_from_expr`.  `if x:` truthiness guards on looked-up type
names are modelled by `≠ ""` checks. -/
def inferTypeFromExpr (clients : List String) (var_types : List (String × String))
    (mrt frt prt : List (String × String)) : SExpr → Option String
  | .sattr v a =>
    (match v with
     | .sname i =>
       (match dlookup var_types i with
        | some rt =>
          if rt ≠ "" then
            (match dlookup prt (rt ++ "." ++ a) with
             | some t => if t ≠ "" then some t else none
             | none => none)
          else none
        | none => none)
     | .sattr _ _ =>
       (match dlookup var_types (exprToStr v) with
        | some rt =>
          if rt ≠ "" then
            (match dlookup prt (rt ++ "." ++ a) with
             | some t => if t ≠ "" then some t else none
             | none => none)
          else none
        | none => none)
     | _ => none)
  | .scall f =>
    (match f with
     | .sname id =>
       if clients.contains id then some id else dlookup frt id
     | .sattr fv fa =>
       if clients.contains fa then some fa
       else
         (match fv with
          | .sname i =>
            if clients.contains i then some i
            else
              (match dlookup var_types i with
               | some rt =>
                 if rt ≠ "" then
                   (match dlookup mrt (rt ++ "." ++ fa) with
                    | some t => if t ≠ "" then some t else none
                    | none => none)
                 else none
               | none => none)
          | _ => none)
     | _ => none)
  | _ => none

/-- The `elif node.value:` fallback of the annotated-assignment case. -/
def buildVarAnnFallback (clients : List String) (mrt frt prt : List (String × String))
    (m : List (String × String)) (target : SExpr) (value : Option SExpr) :
    List (String × String) :=
  match value with
  | some v =>
    (match inferTypeFromExpr clients m mrt frt prt v with
     | some t => if t ≠ "" then assignVarType target t m else m
     | none => m)
  | none => m

/-- The body of `_build_var_type_map`'s walk (one node). -/
def buildVarStep (clients : List String) (mrt frt prt : List (String × String))
    (m : List (String × String)) : SampleNode → List (String × String)
  | .assignNode targets value =>
    (match inferTypeFromExpr clients m mrt frt prt value with
     | some t =>
       if t ≠ "" then targets.foldl (fun m tg => assignVarType tg t m) m else m
     | none => m)
  | .annAssignNode target ann value =>
    (match extractClientTypeFromAnn clients ann with
     | some t =>
       if t ≠ "" then assignVarType target t m
       else buildVarAnnFallback clients mrt frt prt m target value
     | none => buildVarAnnFallback clients mrt frt prt m target value)
  | _ => m

/-- `_build_var_type_map` over a walk sequence. -/
def buildVarTypeMap (clients : List String) (mrt frt prt : List (String × String))
    (nodes : List SampleNode) : List (String × String) :=
  nodes.foldl (fun m n => buildVarStep clients mrt frt prt m n) []

/-- `extract_call_info` on a call node. -/
def extractCallInfo (func : SExpr) (lineno : Nat) : Option (String × Nat) :=
  match func with
  | .sattr _ a => some (a, lineno)
  | _ => none

/-- `_resolve_receiver_type` (the unused `client_names` parameter of the
source is kept). -/
def resolveReceiverType (func : SExpr) (var_types : List (String × String))
    (_client_names : List String) (mrt frt : List (String × String)) : Option String :=
  match func with
  | .sattr receiver _ =>
    (match receiver with
     | .sname i => dlookup var_types i
     | .sattr rv ra =>
       (match dlookup var_types (exprToStr rv ++ "." ++ ra) with
        | some resolved =>
          if resolved ≠ "" then some resolved else dlookup var_types ra
        | none => dlookup var_types ra)
     | .scall cf =>
       (match cf with
        | .sname i => dlookup frt i
        | .sattr cv ca =>
          (match cv with
           | .sname i =>
             (match dlookup var_types i with
              | some rt =>
                if rt ≠ "" then dlookup mrt (rt ++ "." ++ ca) else none
              | none => none)
           | _ => none)
        | _ => none)
     | .sother => none)
  | _ => none

/-- The candidate list of the global-name fallback: every client type
exposing a method of this name, in `client_methods` order. -/
def candidatesOf (cm : List (String × List String)) (method_name : String) : List String :=
  (cm.filter (fun p => p.2.contains method_name)).map (·.1)

/-- Strategy 2 of call attribution: global method-name matching with the
inheritance-chain (unique root) disambiguation. -/
def fallbackClient (cm : List (String × List String))
    (class_bases : List (String × List String)) (method_name : String) : Option String :=
  let candidates := candidatesOf cm method_name
  match candidates with
  | [c] => some c
  | [] => none
  | _ =>
    let roots := candidates.filter (fun c =>
      !(((dlookup class_bases c).getD []).any (fun b => candidates.contains b)))
    match roots with
    | [r] => some r
    | _ => none

/-- A covered-operation record. -/
structure CoveredOp where
  client : String
  method : String
  file : String
  line : Nat
deriving DecidableEq

/-- An uncovered-operation record. -/
structure UncoveredOp where
  client : String
  method : String
  sig : String
deriving DecidableEq

/-- The parameters the per-file scan closes over. -/
structure UsageParams where
  client_methods : List (String × List String)
  client_names : List String
  mrt : List (String × String)
  frt : List (String × String)
  prt : List (String × String)
  class_bases : List (String × List String)

/-- The `if key not in seen_ops: seen_ops.add(key); covered.append(...)`
step shared by both attribution strategies. -/
def tryRecordOp (st : List CoveredOp × List String) (client mname relPath : String)
    (line : Nat) : List CoveredOp × List String :=
  let key := client ++ "." ++ mname
  if st.2.contains key then st
  else (st.1 ++ [{ client := client, method := mname, file := relPath, line := line }],
        st.2 ++ [key])

/-- Strategy 2 applied to one call (the `if client_name is not None` tail of
the loop body). -/
def applyFallback (P : UsageParams) (st : List CoveredOp × List String)
    (mname relPath : String) (line : Nat) : List CoveredOp × List String :=
  match fallbackClient P.client_methods P.class_bases mname with
  | some client_name => tryRecordOp st client_name mname relPath line
  | none => st

/-- The call-attribution loop body for one `ast.Call` node: strategy 1
(receiver-type resolution, with `continue` when the resolved client owns the
method) and strategy 2 (global name fallback). -/
def visitCallNode (P : UsageParams) (var_types : List (String × String))
    (relPath : String) (st : List CoveredOp × List String) (func : SExpr)
    (lineno : Nat) : List CoveredOp × List String :=
  match extractCallInfo func lineno with
  | none => st
  | some (mname, line) =>
    (match resolveReceiverType func var_types P.client_names P.mrt P.frt with
     | some rc =>
       if rc ≠ "" && (dlookup P.client_methods rc).isSome then
         if ((dlookup P.client_methods rc).getD []).contains mname then
           tryRecordOp st rc mname relPath line
         else applyFallback P st mname relPath line
       else applyFallback P st mname relPath line
     | none => applyFallback P st mname relPath line)

/-- The walk over a file's nodes looking for call expressions. -/
def processNode (P : UsageParams) (var_types : List (String × String)) (relPath : String)
    (st : List CoveredOp × List String) : SampleNode → List CoveredOp × List String
  | .callNode f ln => visitCallNode P var_types relPath st f ln
  | _ => st

/-- Await-like nodes (`ast.Await`, `ast.AsyncWith`, `ast.AsyncFor`). -/
def isAwaitLike : SampleNode → Bool
  | .awaitNode => true
  | .asyncWithNode => true
  | .asyncForNode => true
  | _ => false

def isTryN : SampleNode → Bool
  | .tryNode => true
  | _ => false

def isAsyncForN : SampleNode → Bool
  | .asyncForNode => true
  | _ => false

/-- `detect_patterns_ast`'s walk with its three found-flags and early
break. -/
def detectPatternsGo (pats : List String) (ha he hs : Bool) :
    List SampleNode → List String
  | [] => pats
  | n :: ns =>
    let s1 := if !ha && isAwaitLike n then (setAdd pats "async", true) else (pats, ha)
    let s2 := if !he && isTryN n then (setAdd s1.1 "error-handling", true) else (s1.1, he)
    let s3 := if !hs && isAsyncForN n then (setAdd s2.1 "streaming", true) else (s2.1, hs)
    if s1.2 && s2.2 && s3.2 then s3.1
    else detectPatternsGo s3.1 s1.2 s2.2 s3.2 ns

/-- A sample source file: its path components and, when it parses, its walk
sequence. -/
structure SampleFile where
  parts : List String
  parsed : Option (List SampleNode)

/-- `str(py_file.relative_to(samples_path))` as the components joined. -/
def relPathOf (f : SampleFile) : String := pyJoin "/" f.parts

/-- The mutable state of the sample-file loop. -/
structure ScanState where
  covered : List CoveredOp
  seen_ops : List String
  patterns : List String
  fileCount : Nat
deriving DecidableEq

/-- One iteration of the sample-file loop: exclusion checks, file counting,
parse-failure skip, variable-type inference, call attribution and pattern
detection. -/
def processFile (P : UsageParams) (st : ScanState) (f : SampleFile) : ScanState :=
  if usageExcludes f.parts then st
  else
    let st := { st with fileCount := st.fileCount + 1 }
    match f.parsed with
    | none => st
    | some nodes =>
      let var_types := buildVarTypeMap P.client_names P.mrt P.frt P.prt nodes
      let cs := nodes.foldl (processNode P var_types (relPathOf f)) (st.covered, st.seen_ops)
      { st with covered := cs.1, seen_ops := cs.2,
                patterns := detectPatternsGo st.patterns false false false nodes }

/-- The `(base, subclass)` relation rows built before the uncovered scan
(`base_to_subclasses` / `subclass_to_bases`, both derived from these
pairs). -/
def buildRelPairs (api : Api) (cm : List (String × List String)) :
    List (String × String) :=
  api.modules.flatMap (fun mod => mod.classes.flatMap (fun cls =>
    let base_str := (cls.base).getD ""
    if base_str ≠ "" then
      (pySplit ',' base_str).filterMap (fun b =>
        if pyStrip b ≠ "" && (dlookup cm (pyStrip b)).isSome then
          some (pyStrip b, cls.name)
        else none)
    else []))

/-- The uncovered-list construction, with inherited coverage through the
base/subclass relation. -/
def buildUncovered (cm : List (String × List String)) (seen_ops : List String)
    (relPairs : List (String × String)) : List UncoveredOp :=
  cm.flatMap (fun p =>
    p.2.filterMap (fun method =>
      let key := p.1 ++ "." ++ method
      if seen_ops.contains key then none
      else
        let viaBases := (relPairs.filter (fun q => q.2 == p.1)).any
          (fun q => seen_ops.contains (q.1 ++ "." ++ method))
        let viaSubs := (relPairs.filter (fun q => q.1 == p.1)).any
          (fun q => seen_ops.contains (q.2 ++ "." ++ method))
        if viaBases || viaSubs then none
        else some { client := p.1, method := method, sig := method ++ "(...)" }))

/-- Insertion step of `sorted` on strings. -/
def insertSorted (x : String) : List String → List String
  | [] => [x]
  | y :: ys => if x ≤ y then x :: y :: ys else y :: insertSorted x ys

/-- `sorted` on strings. -/
def sortStrings (l : List String) : List String := l.foldr insertSorted []

/-- The result of `analyze_usage`. -/
structure UsageReport where
  fileCount : Nat
  covered : List CoveredOp
  uncovered : List UncoveredOp
  patterns : List String
deriving DecidableEq

/-- The parameter bundle the sample-file loop closes over. -/
def usageParamsOf (api : Api) (cm : List (String × List String)) : UsageParams :=
  { client_methods := cm
    client_names := cm.map (·.1)
    mrt := methodReturnTypeMap api cm
    frt := functionReturnTypeMap api cm
    prt := propertyTypeMap api cm
    class_bases := classBasesOf api cm }

/-- The scan state before the first sample file. -/
def initScanState : ScanState :=
  { covered := [], seen_ops := [], patterns := [], fileCount := 0 }

/-- The scan state after the sample-file loop. -/
def finalScanState (samples : List SampleFile) (api : Api) : ScanState :=
  samples.foldl (processFile (usageParamsOf api (clientMethodsOf api))) initScanState

/-- `analyze_usage`: the full usage pass over a sample corpus (the corpus
directory walk is modelled by the input file list, in `rglob` order). -/
def analyze_usage (samples : List SampleFile) (api : Api) : UsageReport :=
  let cm := clientMethodsOf api
  if cm.isEmpty then { fileCount := 0, covered := [], uncovered := [], patterns := [] }
  else
    { fileCount := (finalScanState samples api).fileCount
      covered := (finalScanState samples api).covered
      uncovered := buildUncovered cm (finalScanState samples api).seen_ops (buildRelPairs api cm)
      patterns := sortStrings (finalScanState samples api).patterns }

/-! ## Claim C1: the non-leakage invariant of `get_external_refs` -/

theorem defined_types_applyOp_mono (bs : List String) (c : TypeReferenceCollector)
    (op : CollectorOp) (x : String) (hx : x ∈ c.defined_types) :
    x ∈ (applyOp bs c op).defined_types := by
  cases op with
  | addDefined nm =>
    simp only [applyOp, add_defined_type]
    exact List.mem_append_left _ hx
  | collectAnn a => exact hx
  | collectImports ss => exact hx

theorem defined_types_foldl_mono (bs : List String) (ops : List CollectorOp)
    (c : TypeReferenceCollector) (x : String) (hx : x ∈ c.defined_types) :
    x ∈ (ops.foldl (applyOp bs) c).defined_types := by
  induction ops generalizing c with
  | nil => exact hx
  | cons op ops ih => exact ih _ (defined_types_applyOp_mono bs c op x hx)

theorem mem_defined_types_of_addDefined (bs : List String) (ops : List CollectorOp)
    (c : TypeReferenceCollector) (d : String) (hd : CollectorOp.addDefined d ∈ ops) :
    bracketHead d ∈ (ops.foldl (applyOp bs) c).defined_types := by
  induction ops generalizing c with
  | nil => cases hd
  | cons op ops ih =>
    rcases List.mem_cons.mp hd with rfl | hd'
    · exact defined_types_foldl_mono bs ops (applyOp bs c (.addDefined d)) _
        (by simp only [applyOp, add_defined_type]
            exact List.mem_append_right _ (List.mem_singleton.mpr rfl))
    · exact ih _ hd'

/-- C1.  Non-leakage invariant: over any extraction pass (trace of collector
calls from the freshly cleared collector), every name in
`get_external_refs` is not builtin-classified and its bracket-stripped base
differs from the bracket-stripped base of every name registered via
`add_defined_type` during that pass. -/
theorem c1_external_refs_nonleakage (bs : List String) (ops : List CollectorOp)
    (n : String) (hn : n ∈ get_external_refs bs (runOps bs ops)) :
    is_builtin_type bs n = false ∧
      ∀ d, CollectorOp.addDefined d ∈ ops → bracketHead n ≠ bracketHead d := by
  unfold get_external_refs at hn
  have h := List.mem_filter.mp hn
  have h2 := h.2
  simp only [Bool.and_eq_true, Bool.not_eq_true'] at h2
  refine ⟨h2.2, ?_⟩
  intro d hd heq
  have hmem : bracketHead d ∈ (runOps bs ops).defined_types :=
    mem_defined_types_of_addDefined bs ops _ d hd
  rw [← heq] at hmem
  have hcontains : (runOps bs ops).defined_types.contains (bracketHead n) = true :=
    List.elem_iff.mpr hmem
  rw [h2.1] at hcontains
  exact Bool.false_ne_true hcontains

/-- Witness input for C1: the spec's scenario annotation
`Optional[Dict[str, "pkg.Widget"]]` (the string literal re-parsed by the
external parser into `pkg.Widget`) after registering a local type. -/
def c1Builtins : List String := ["Optional", "Dict", "str", "int", "list"]

def c1Ann : PyExpr :=
  .subscript (.pname "Optional")
    (.subscript (.pname "Dict")
      (.tupleE [.pname "str",
                .strConst "pkg.Widget" (some (.pattr (.pname "pkg") "Widget"))]))

def c1Ops : List CollectorOp :=
  [.addDefined "LocalThing", .collectAnn (some c1Ann)]

/-- C1 witness: on the `Optional[Dict[str, "pkg.Widget"]]` pass,
`pkg.Widget` is an external reference, and the non-leakage conclusion holds
for it. -/
theorem c1_witness :
    "pkg.Widget" ∈ get_external_refs c1Builtins (runOps c1Builtins c1Ops) ∧
      (is_builtin_type c1Builtins "pkg.Widget" = false ∧
        ∀ d, CollectorOp.addDefined d ∈ c1Ops →
          bracketHead "pkg.Widget" ≠ bracketHead d) :=
  ⟨by decide, c1_external_refs_nonleakage c1Builtins c1Ops "pkg.Widget" (by decide)⟩

/-! ## Claim C2: dotted identifiers and the claimed stdlib-by-prefix filter

The claim states that a dotted name whose leading segment is a
standard-library package (e.g. `os.PathLike`) is NOT added to the reference
set.  The `Attribute` branch of `collect_types_from_annotation` only
consults `is_builtin_type`, which classifies no dotted name as builtin, and
never consults `is_stdlib_package`; so `os.PathLike` IS added.  Stdlib
filtering only happens later, in dependency recording. -/

/-- C2 counterexample: with `os` a standard-library package (it is in
`sys.stdlib_module_names`), the annotation `os.PathLike` is added to the
reference set, contradicting the claimed stdlib-by-prefix exclusion. -/
theorem c2_counterexample :
    "os.PathLike" ∈ collectTypes ["int", "str", "list"] (.pattr (.pname "os") "PathLike") ∧
      is_stdlib_package ["os", "sys", "json"] "os.PathLike" = true := by
  decide

theorem splitCharAux_no_sep (sep : Char) (l acc : List Char) (h : sep ∉ l) :
    splitCharAux sep l acc = [acc.reverse ++ l] := by
  induction l generalizing acc with
  | nil => simp [splitCharAux]
  | cons c cs ih =>
    have hc : c ≠ sep := fun hcs => h (hcs ▸ List.mem_cons_self c cs)
    have hcs : sep ∉ cs := fun hin => h (List.mem_cons_of_mem _ hin)
    simp only [splitCharAux, if_neg hc]
    rw [ih _ hcs]
    simp

theorem bracketHead_eq_self (s : String) (h : '[' ∉ s.data) : bracketHead s = s := by
  unfold bracketHead pySplit
  rw [splitCharAux_no_sep '[' s.data [] h]
  simp

theorem mem_dropWhile_of_mem {p : Char → Bool} {x : Char} (l : List Char)
    (hx : x ∈ l) (hpx : p x = false) : x ∈ l.dropWhile p := by
  induction l with
  | nil => cases hx
  | cons a as ih =>
    by_cases hpa : p a = true
    · rw [List.dropWhile_cons_of_pos hpa]
      rcases List.mem_cons.mp hx with rfl | hx'
      · rw [hpa] at hpx; cases hpx
      · exact ih hx'
    · rw [List.dropWhile_cons_of_neg (by simpa using hpa)]
      exact hx

theorem mem_pyStrip_data {x : Char} (s : String) (hx : x ∈ s.data)
    (hw : x.isWhitespace = false) : x ∈ (pyStrip s).data := by
  unfold pyStrip
  apply List.mem_reverse.mpr
  apply mem_dropWhile_of_mem _ _ hw
  apply List.mem_reverse.mpr
  exact mem_dropWhile_of_mem _ hx hw

theorem is_builtin_false_of_dot (bs : List String) (t : String)
    (h : '.' ∈ (pyStrip (bracketHead t)).data) : is_builtin_type bs t = false := by
  unfold is_builtin_type
  have hc : (pyStrip (bracketHead t)).data.contains '.' = true := List.elem_iff.mpr h
  simp only [hc, if_true]

theorem pyJoin_dot_mem (l : List String) (h : 2 ≤ l.length) :
    '.' ∈ (pyJoin "." l).data := by
  match l, h with
  | x :: y :: rest, _ =>
    show '.' ∈ (x ++ "." ++ pyJoin "." (y :: rest)).data
    rw [String.data_append, String.data_append]
    apply List.mem_append_left
    apply List.mem_append_right
    decide

theorem attrParts_ne_nil : ∀ (e : PyExpr) (ps : List String),
    attrParts e = some ps → ps ≠ []
  | .pname id, ps, h => by
    simp only [attrParts, Option.some_inj] at h
    simp [← h]
  | .pattr v a, ps, h => by
    simp only [attrParts, Option.map_eq_some'] at h
    rcases h with ⟨vs, _, rfl⟩
    simp
  | .subscript _ _, _, h => by simp [attrParts] at h
  | .bitOr _ _, _, h => by simp [attrParts] at h
  | .binOpOther _ _, _, h => by simp [attrParts] at h
  | .strConst _ _, _, h => by simp [attrParts] at h
  | .otherConst, _, h => by simp [attrParts] at h
  | .tupleE _, _, h => by simp [attrParts] at h
  | .listE _, _, h => by simp [attrParts] at h
  | .otherExpr, _, h => by simp [attrParts] at h

theorem getAttrName_pattr_dot (v : PyExpr) (a fn : String)
    (hfn : getAttrName (.pattr v a) = some fn) : '.' ∈ fn.data := by
  unfold getAttrName at hfn
  simp only [attrParts, Option.map_map, Option.map_eq_some'] at hfn
  rcases hfn with ⟨vs, hvs, hjoin⟩
  have hne := attrParts_ne_nil v vs hvs
  have hlen : 2 ≤ (vs ++ [a]).length := by
    cases vs with
    | nil => exact absurd rfl hne
    | cons x xs =>
      simp only [List.length_append, List.length_cons, List.length_nil]
      omega
  have hfn2 : pyJoin "." (vs ++ [a]) = fn := by simpa [Function.comp] using hjoin
  rw [← hfn2]
  exact pyJoin_dot_mem (vs ++ [a]) hlen

/-- C2 amended: when the collector visits a qualified/dotted identifier, it
adds the fully dotted name to the reference set whenever the attribute
chain resolves to a name (no stdlib-by-prefix exclusion exists at
collection time; for bracket-free resolved names, dottedness already rules
out the builtin classification). -/
theorem c2_amended_dotted_always_added (builtins : List String) (v : PyExpr)
    (a fn : String) (hfn : getAttrName (.pattr v a) = some fn)
    (hbr : '[' ∉ fn.data) :
    fn ∈ collectTypes builtins (.pattr v a) := by
  have hdot : '.' ∈ fn.data := getAttrName_pattr_dot v a fn hfn
  have hfn_ne : fn ≠ "" := by
    intro hrfl
    rw [hrfl] at hdot
    cases hdot
  have hnb : is_builtin_type builtins fn = false := by
    apply is_builtin_false_of_dot
    rw [bracketHead_eq_self fn hbr]
    exact mem_pyStrip_data fn hdot (by decide)
  have hguard : (fn ≠ "" && !(is_builtin_type builtins fn)) = true := by
    simp [hfn_ne, hnb]
  simp only [collectTypes, hfn, hguard, if_true]
  exact List.mem_singleton.mpr rfl

/-- C2 amended-claim witness: `os.PathLike` resolves and is added. -/
theorem c2_amended_witness :
    getAttrName (.pattr (.pname "os") "PathLike") = some "os.PathLike" ∧
      "os.PathLike" ∈ collectTypes ["int", "str", "list"] (.pattr (.pname "os") "PathLike") :=
  ⟨by decide,
   c2_amended_dotted_always_added ["int", "str", "list"] (.pname "os") "PathLike"
     "os.PathLike" (by decide) (by decide)⟩

/-! ## Claim C4: dependency-resolution precedence in `resolve_package`

The claim describes the resolution strategy; `specResolvePackage` below
transcribes that description (import-map lookup accepting the imported
module's root package only when installed; otherwise, for dotted names,
every proper prefix longest-to-shortest, accepting the first installed one;
otherwise no package), and the theorem proves the source function equal to
it whenever the resolved-name cache misses. -/

/-- Claim wording, step 1: import-map lookup, accepting the imported
module's root package only when that root is among the installed
packages. -/
def specImportMapAttribution (c : TypeReferenceCollector) (type_name : String)
    (installed : List String) : Option String :=
  match dlookup c.import_map (bracketHead type_name) with
  | some module_path =>
    if installed.contains (dotHead module_path) then some (dotHead module_path) else none
  | none => none

/-- Claim wording, step 2's candidate list: every proper prefix of the
dotted name, from longest to shortest. -/
def specProperDotted (type_name : String) : List String :=
  let parts := pySplit '.' type_name
  (parts.inits.reverse.drop 1).filterMap
    (fun pre => if pre = [] then none else some (pyJoin "." pre))

/-- The dependency-resolution strategy as the claim words it. -/
def specResolvePackage (c : TypeReferenceCollector) (type_name : String)
    (installed : List String) : Option String :=
  match specImportMapAttribution c type_name installed with
  | some pkg => some pkg
  | none => (specProperDotted type_name).find? (fun pkg => installed.contains pkg)

theorem inits_eq_map_take (ps : List String) :
    ps.inits = (List.range (ps.length + 1)).map (ps.take ·) := by
  apply List.ext_getElem
  · simp [List.length_inits]
  · intro n h1 h2
    simp [List.getElem_inits]

theorem take_pos_ne_nil (ps : List String) (hps : ps ≠ []) (i : Nat) (hi : 1 ≤ i) :
    ps.take i ≠ [] := by
  intro h
  rcases List.take_eq_nil_iff.mp h with h0 | h0
  · omega
  · exact hps h0

theorem filterMap_take_pos (ps : List String) (hps : ps ≠ []) :
    ∀ (l : List Nat), (∀ i ∈ l, 1 ≤ i) →
      l.filterMap (fun i => if ps.take i = [] then none else some (pyJoin "." (ps.take i)))
        = l.map (fun i => pyJoin "." (ps.take i)) := by
  intro l
  induction l with
  | nil => intro _; rfl
  | cons i is ih =>
    intro h
    have hi : 1 ≤ i := h i (List.mem_cons_self _ _)
    have hne := take_pos_ne_nil ps hps i hi
    simp only [List.filterMap_cons, List.map_cons, if_neg hne]
    rw [ih (fun j hj => h j (List.mem_cons_of_mem _ hj))]

theorem specProperDotted_parts_eq (ps : List String) :
    (ps.inits.reverse.drop 1).filterMap
        (fun pre => if pre = [] then none else some (pyJoin "." pre))
      = ((List.range' 1 (ps.length - 1)).reverse).map (fun i => pyJoin "." (ps.take i)) := by
  cases hps : ps with
  | nil => rfl
  | cons p ps' =>
    rw [← hps]
    have hlen : ps.length = ps'.length + 1 := by rw [hps]; rfl
    rw [inits_eq_map_take, ← List.map_reverse, hlen, List.range_succ, List.reverse_append]
    simp only [List.reverse_singleton, List.singleton_append, List.map_cons, List.drop_succ_cons,
      List.drop_zero, List.filterMap_map]
    have hsplit : List.range (ps'.length + 1) = 0 :: List.range' 1 ps'.length := by
      rw [List.range_eq_range']
      exact List.range'_succ 0 ps'.length 1
    rw [hsplit]
    simp only [List.reverse_cons, List.filterMap_append, Nat.add_sub_cancel]
    have h0 : List.filterMap
        ((fun pre => if pre = [] then none else some (pyJoin "." pre)) ∘ ps.take) [0] = [] := by
      simp [Function.comp, List.take_zero]
    rw [h0, List.append_nil]
    have hmem : ∀ i ∈ (List.range' 1 ps'.length).reverse, 1 ≤ i := by
      intro i hi
      exact (List.mem_range'_1.mp (List.mem_reverse.mp hi)).1
    have hps_ne : ps ≠ [] := by rw [hps]; simp
    calc List.filterMap
          ((fun pre => if pre = [] then none else some (pyJoin "." pre)) ∘ ps.take)
          (List.range' 1 ps'.length).reverse
        = List.filterMap
            (fun i => if ps.take i = [] then none else some (pyJoin "." (ps.take i)))
            (List.range' 1 ps'.length).reverse := by
          apply List.filterMap_congr
          intro i _
          rfl
      _ = (List.range' 1 ps'.length).reverse.map (fun i => pyJoin "." (ps.take i)) :=
          filterMap_take_pos ps hps_ne _ hmem

theorem specProperDotted_eq (t : String) :
    specProperDotted t = prefixCandidates t := by
  unfold specProperDotted prefixCandidates
  exact specProperDotted_parts_eq (pySplit '.' t)

theorem resolvePackageDotted_fst (c : TypeReferenceCollector) (t : String)
    (installed : List String) :
    (resolvePackageDotted c t installed).1 =
      (specProperDotted t).find? (fun pkg => installed.contains pkg) := by
  rw [specProperDotted_eq]
  unfold resolvePackageDotted
  by_cases hdot : t.data.contains '.'
  · rw [if_pos hdot]
    cases hfind : (prefixCandidates t).find? (fun pkg => installed.contains pkg) with
    | some pkg => simp [hfind]
    | none => simp [hfind]
  · rw [if_neg hdot]
    have hnot : '.' ∉ t.data := by
      intro hmem
      exact hdot (List.elem_iff.mpr hmem)
    have hsplit : pySplit '.' t = [t] := by
      unfold pySplit
      rw [splitCharAux_no_sep '.' t.data [] hnot]
      simp
    unfold prefixCandidates
    rw [hsplit]
    rfl

/-- C4.  Dependency-resolution precedence: whenever the resolved-name cache
misses, `resolve_package` returns exactly what the claim describes — the
import-map attribution when it succeeds, otherwise the first installed
proper dotted prefix (longest first), otherwise no package. -/
theorem c4_resolve_package_precedence (c : TypeReferenceCollector) (type_name : String)
    (installed : List String) (hcache : dlookup c.resolved_packages type_name = none) :
    (resolve_package c type_name installed).1 =
      specResolvePackage c type_name installed := by
  unfold resolve_package specResolvePackage specImportMapAttribution
  rw [hcache]
  cases him : dlookup c.import_map (bracketHead type_name) with
  | some module_path =>
    by_cases hroot : installed.contains (dotHead module_path)
    · have hroot' : dotHead module_path ∈ installed := List.elem_iff.mp hroot
      simp [him, hroot, hroot']
    · simp only [him, hroot, Bool.false_eq_true, if_false]
      exact resolvePackageDotted_fst c type_name installed
  | none =>
    simp only [him]
    exact resolvePackageDotted_fst c type_name installed

/-- C4 witness input: a collector whose import map misses the reference and
an installed-package set matched by the second-longest proper prefix. -/
def c4Collector : TypeReferenceCollector :=
  { refs := [], defined_types := [], resolved_packages := [],
    import_map := [("HttpResponse", "http.client")] }

def c4Installed : List String := ["corelib", "corelib.rest"]

/-- C4 witness: concrete cache-missing resolution where the dotted-prefix
fallback fires, with the theorem applied at that input. -/
theorem c4_witness :
    dlookup c4Collector.resolved_packages "corelib.rest.Response" = none ∧
      (resolve_package c4Collector "corelib.rest.Response" c4Installed).1 =
        specResolvePackage c4Collector "corelib.rest.Response" c4Installed ∧
      (resolve_package c4Collector "corelib.rest.Response" c4Installed).1 =
        some "corelib.rest" :=
  ⟨by decide,
   c4_resolve_package_precedence c4Collector "corelib.rest.Response" c4Installed (by decide),
   by decide⟩

/-! ## Claim C3: overload merging and docstring inheritance

The claim says the implementation's docstring is inherited by exactly the
first undocumented overload, later undocumented overloads staying without
documentation.  The source's merge loop assigns the implementation's
docstring to EVERY undocumented overload
(`for ol in overloads: if not ol.get("doc") and impl_doc: ol["doc"] = impl_doc`),
so the claim fails on any class with two undocumented overloads. -/

def c3Overload1 : PyFunctionDef :=
  { name := "send", args := [{ arg := "self", ann := none }, { arg := "body", ann := none }],
    vararg := none, kwarg := none, returns := none, docstring := none, isAsync := false,
    decorator_list := [.decName "overload"] }

def c3Overload2 : PyFunctionDef :=
  { name := "send", args := [{ arg := "self", ann := none }], vararg := none,
    kwarg := some { arg := "kwargs", ann := none }, returns := none, docstring := none,
    isAsync := false, decorator_list := [.decName "overload"] }

def c3Impl : PyFunctionDef :=
  { name := "send", args := [{ arg := "self", ann := none }], vararg := none, kwarg := none,
    returns := none, docstring := some "Send a message.", isAsync := false,
    decorator_list := [] }

def c3Class : PyClassDef :=
  { name := "Client", bases := [], docstring := none,
    body := [.funcDef c3Overload1, .funcDef c3Overload2, .funcDef c3Impl] }

/-- C3 counterexample: two undocumented overloads plus a documented
implementation body; the claim requires every overload after the first to
stay undocumented, but the second overload also receives the
implementation's docstring. -/
theorem c3_counterexample :
    ¬ (∀ m ∈ (extract_class [] [] c3Class).methods.drop 1, m.doc = none) := by
  decide

theorem extractClassStep_overload (st : ExtractClassState) (o : PyFunctionDef)
    (hskip : skipMemberName o.name = false) (hol : is_overload_decorated o = true) :
    extractClassStep st (.funcDef o) =
      { st with overload_map := dappend st.overload_map o.name (extract_function [] [] o) } := by
  simp [extractClassStep, hskip, hol]

theorem dappend_same (nm : String) (acc : List FuncInfo) (v : FuncInfo) :
    dappend [(nm, acc)] nm v = [(nm, acc ++ [v])] := by
  simp [dappend]

theorem fold_overload_items (nm : String) (hskip : skipMemberName nm = false) :
    ∀ (os : List PyFunctionDef) (ms : List FuncInfo) (props : List PropInfo)
      (acc : List FuncInfo),
      (∀ o ∈ os, o.name = nm ∧ is_overload_decorated o = true) →
      (os.map ClassBodyItem.funcDef).foldl extractClassStep
          { methods := ms, properties := props, overload_map := [(nm, acc)] }
        = { methods := ms, properties := props,
            overload_map := [(nm, acc ++ os.map (extract_function [] []))] } := by
  intro os
  induction os with
  | nil => intro ms props acc _; simp
  | cons o os' ih =>
    intro ms props acc hos
    have ho := hos o (List.mem_cons_self _ _)
    simp only [List.map_cons, List.foldl_cons]
    rw [extractClassStep_overload _ _ (by rw [ho.1]; exact hskip) ho.2]
    simp only [ho.1, dappend_same]
    rw [ih ms props (acc ++ [extract_function [] [] o])
        (fun o' ho' => hos o' (List.mem_cons_of_mem _ ho'))]
    simp [List.append_assoc]

/-- C3 amended: when a class contains overload-marked signatures for a
method name together with a non-overload implementation body of that name,
the implementation's entry is dropped in favor of the overload list, and
the implementation's docstring is inherited by EVERY undocumented overload
in that list (documented overloads keep their own). -/
theorem c3_amended_overload_merge (es : List String) (rex : List (String × String))
    (nm : String) (bases : List PyExpr) (docstring : Option String)
    (os : List PyFunctionDef) (impl : PyFunctionDef)
    (hos : ∀ o ∈ os, o.name = impl.name ∧ is_overload_decorated o = true)
    (hskip : skipMemberName impl.name = false)
    (himpl : is_overload_decorated impl = false)
    (hprop : (extract_function [] [] impl).isProp = false)
    (hne : os ≠ []) :
    (extract_class es rex
        { name := nm, bases := bases, docstring := docstring,
          body := os.map ClassBodyItem.funcDef ++ [ClassBodyItem.funcDef impl] }).methods
      = os.map (fun o =>
          markOverloadInherit (extract_function [] [] impl).doc (extract_function [] [] o)) := by
  cases os with
  | nil => exact absurd rfl hne
  | cons o0 os' =>
    have h0 := hos o0 (List.mem_cons_self _ _)
    unfold extract_class
    simp only [List.foldl_append, List.map_cons, List.foldl_cons, List.foldl_nil]
    rw [extractClassStep_overload _ _ (by rw [h0.1]; exact hskip) h0.2]
    simp only [h0.1]
    have hd0 : dappend ([] : List (String × List FuncInfo)) impl.name
        (extract_function [] [] o0) = [(impl.name, [extract_function [] [] o0])] := by
      simp [dappend]
    rw [hd0]
    rw [fold_overload_items impl.name hskip os' _ _ _
        (fun o' ho' => hos o' (List.mem_cons_of_mem _ ho'))]
    have hstep : extractClassStep
        { methods := [], properties := [],
          overload_map := [(impl.name,
            [extract_function [] [] o0] ++ os'.map (extract_function [] []))] }
        (.funcDef impl)
        = { methods := ([extract_function [] [] o0] ++ os'.map (extract_function [] [])).map
              (markOverloadInherit (extract_function [] [] impl).doc),
            properties := [], overload_map := [] } := by
      simp [extractClassStep, hskip, himpl, hprop, dlookup, dpop]
    rw [hstep]
    simp [List.map_map, Function.comp]

def c3WOverloadA : PyFunctionDef :=
  { name := "poll", args := [], vararg := none, kwarg := none, returns := none,
    docstring := some "Poll by id.", isAsync := false,
    decorator_list := [.decAttr "overload"] }

def c3WOverloadB : PyFunctionDef :=
  { name := "poll", args := [], vararg := none, kwarg := none, returns := none,
    docstring := none, isAsync := false, decorator_list := [.decName "overload"] }

def c3WImpl : PyFunctionDef :=
  { name := "poll", args := [], vararg := none, kwarg := none, returns := none,
    docstring := some "Poll for a result.", isAsync := false, decorator_list := [] }

/-- C3 amended-claim witness: a documented and an undocumented overload plus
a documented implementation, with the amended theorem applied at that
input. -/
theorem c3_amended_witness :
    (∀ o ∈ [c3WOverloadA, c3WOverloadB],
        o.name = c3WImpl.name ∧ is_overload_decorated o = true) ∧
      (extract_class [] []
          { name := "Poller", bases := [], docstring := none,
            body := [c3WOverloadA, c3WOverloadB].map ClassBodyItem.funcDef ++
              [ClassBodyItem.funcDef c3WImpl] }).methods
        = [c3WOverloadA, c3WOverloadB].map (fun o =>
            markOverloadInherit (extract_function [] [] c3WImpl).doc
              (extract_function [] [] o)) :=
  ⟨by decide,
   c3_amended_overload_merge [] [] "Poller" [] none [c3WOverloadA, c3WOverloadB] c3WImpl
     (by decide) (by decide) (by decide) (by decide) (List.cons_ne_nil _ _)⟩

/-! ## Claim C8: the two file-selection filters

The claim says extraction and usage scanning apply identical file-selection
rules.  They do not: extraction additionally excludes build/dist/egg
artifacts, tox/nox/site-packages/node_modules directories and
leading-underscore files, applies its skip list as substring tests with a
`TestFixtures` allowance, while the usage scanner only checks
`__pycache__`/`venv`/`.venv` path components and test-file naming.  What
does hold: outside `TestFixtures` paths, every file the usage scanner
excludes is also excluded by extraction. -/

/-- C8 counterexample: a leading-underscore module is excluded by
extraction's filter but admitted by the usage scanner's filter, refuting
the claimed equivalence. -/
theorem c8_counterexample :
    extractionExcludes ["pkg", "_private.py"] = true ∧
      usageExcludes ["pkg", "_private.py"] = false := by
  decide

theorem getLastD_mem (l : List String) (d : String) (h : l ≠ []) : l.getLastD d ∈ l := by
  induction l generalizing d with
  | nil => exact absurd rfl h
  | cons x xs ih =>
    cases xs with
    | nil => simp [List.getLastD]
    | cons y ys => exact List.mem_cons_of_mem _ (ih x (List.cons_ne_nil _ _))

theorem mem_pyJoin_data_infix (sep p : String) :
    ∀ (parts : List String), p ∈ parts → p.data <:+: (pyJoin sep parts).data := by
  intro parts
  induction parts with
  | nil => intro h; cases h
  | cons x xs ih =>
    intro h
    cases xs with
    | nil =>
      rcases List.mem_cons.mp h with rfl | h'
      · exact List.infix_rfl
      · cases h'
    | cons y ys =>
      rcases List.mem_cons.mp h with rfl | h'
      · show p.data <:+: (p ++ sep ++ pyJoin sep (y :: ys)).data
        rw [String.data_append, String.data_append, List.append_assoc]
        exact (List.prefix_append _ _).isInfix
      · show p.data <:+: (x ++ sep ++ pyJoin sep (y :: ys)).data
        rw [String.data_append, String.data_append]
        exact (ih h').trans (List.suffix_append _ _).isInfix

/-- C8 amended: the two filters are not identical, but outside
`TestFixtures` paths the usage scanner's filter is at most as strict:
every sample path it excludes is also excluded by extraction's filter. -/
theorem c8_amended_usage_stricter (parts : List String)
    (hTF : pyContains "TestFixtures" (pyJoin "/" parts) = false)
    (hu : usageExcludes parts = true) :
    extractionExcludes parts = true := by
  unfold usageExcludes at hu
  unfold extractionExcludes
  rw [Bool.or_eq_true] at hu ⊢
  rcases hu with hparts | hname
  · left
    rw [Bool.and_eq_true]
    refine ⟨by rw [hTF]; rfl, ?_⟩
    rw [List.any_eq_true] at hparts ⊢
    rcases hparts with ⟨p, hp, hcond⟩
    have hinf : p.data <:+: (pyJoin "/" parts).data := mem_pyJoin_data_infix "/" p parts hp
    rw [Bool.or_eq_true, Bool.or_eq_true] at hcond
    rcases hcond with (h1 | h2) | h3
    · rw [eq_of_beq h1] at hinf
      exact ⟨"__pycache__", by decide, decide_eq_true hinf⟩
    · rw [eq_of_beq h2] at hinf
      exact ⟨"venv", by decide, decide_eq_true hinf⟩
    · rw [eq_of_beq h3] at hinf
      exact ⟨".venv", by decide, decide_eq_true hinf⟩
  · left
    rw [Bool.and_eq_true]
    refine ⟨by rw [hTF]; rfl, ?_⟩
    rw [List.any_eq_true]
    have hne : parts ≠ [] := by
      intro h0
      rw [h0] at hname
      revert hname
      decide
    have hnm : parts.getLastD "" ∈ parts := getLastD_mem parts "" hne
    have hinf : (parts.getLastD "").data <:+: (pyJoin "/" parts).data :=
      mem_pyJoin_data_infix "/" _ parts hnm
    rw [Bool.or_eq_true] at hname
    rcases hname with h1 | h2
    · refine ⟨"test_", by decide, ?_⟩
      have hp := of_decide_eq_true h1
      exact decide_eq_true (hp.isInfix.trans hinf)
    · refine ⟨"_test.py", by decide, ?_⟩
      have hp := of_decide_eq_true h2
      exact decide_eq_true (hp.isInfix.trans hinf)

/-- C8 amended-claim witness: a `venv` sample path excluded by both
filters, with the amended theorem applied at that input. -/
theorem c8_amended_witness :
    pyContains "TestFixtures" (pyJoin "/" ["samples", "venv", "x.py"]) = false ∧
      usageExcludes ["samples", "venv", "x.py"] = true ∧
      extractionExcludes ["samples", "venv", "x.py"] = true :=
  ⟨by decide, by decide, c8_amended_usage_stricter ["samples", "venv", "x.py"] (by decide) (by decide)⟩

/-! ## Claim C6: ambiguity rule of the global-name fallback -/

theorem match_singleton_some (l : List String) (c : String) :
    (match l with
     | [r] => some r
     | _ => (none : Option String)) = some c ↔ l = [c] := by
  match l with
  | [] => simp
  | [r] => simp
  | r1 :: r2 :: rs => simp

theorem filter_singleton_iff {α : Type} [DecidableEq α] (p : α → Bool) (l : List α)
    (hnd : l.Nodup) (c : α) :
    l.filter p = [c] ↔ c ∈ l ∧ p c = true ∧ ∀ x ∈ l, p x = true → x = c := by
  constructor
  · intro h
    have hc : c ∈ l.filter p := by rw [h]; exact List.mem_singleton.mpr rfl
    have hc' := List.mem_filter.mp hc
    refine ⟨hc'.1, hc'.2, ?_⟩
    intro x hx hpx
    have : x ∈ l.filter p := List.mem_filter.mpr ⟨hx, hpx⟩
    rw [h] at this
    exact List.mem_singleton.mp this
  · rintro ⟨hmem, hpc, huniq⟩
    induction l with
    | nil => cases hmem
    | cons a as ih =>
      have hnd' := List.nodup_cons.mp hnd
      rcases List.mem_cons.mp hmem with rfl | hmem'
      · rw [List.filter_cons_of_pos hpc]
        have : as.filter p = [] := by
          rw [List.filter_eq_nil_iff]
          intro x hx
          intro hpx
          exact hnd'.1 ((huniq x (List.mem_cons_of_mem _ hx) hpx) ▸ hx)
        rw [this]
      · have ha : p a = false := by
          by_contra hpa
          have hpa' : p a = true := by
            cases hpa2 : p a with
            | true => rfl
            | false => exact absurd hpa2 hpa
          have : a = c := huniq a (List.mem_cons_self _ _) hpa'
          rw [this] at hnd'
          exact hnd'.1 hmem'
        rw [List.filter_cons_of_neg (by simp [ha])]
        exact ih hnd'.2 hmem' (fun x hx hpx => huniq x (List.mem_cons_of_mem _ hx) hpx)

theorem candidatesOf_nodup (cm : List (String × List String)) (mn : String)
    (hnd : (cm.map Prod.fst).Nodup) : (candidatesOf cm mn).Nodup := by
  unfold candidatesOf
  exact hnd.sublist ((List.filter_sublist cm).map Prod.fst)

/-- C6.  Ambiguity rule of the global-name fallback: with distinct client
names (dict keys) and more than one candidate for the method name, the call
is attributed, and attributed to `cl`, exactly when `cl` is a candidate
having no candidate among its recorded base classes and every other
candidate has one (a unique root of the candidate set); otherwise the call
is left unattributed. -/
theorem c6_fallback_unique_root (cm cb : List (String × List String)) (mn cl : String)
    (hnd : (cm.map Prod.fst).Nodup) (hc : 1 < (candidatesOf cm mn).length) :
    fallbackClient cm cb mn = some cl ↔
      (cl ∈ candidatesOf cm mn ∧
        (∀ b ∈ (dlookup cb cl).getD [], b ∉ candidatesOf cm mn) ∧
        ∀ c' ∈ candidatesOf cm mn,
          (∀ b ∈ (dlookup cb c').getD [], b ∉ candidatesOf cm mn) → c' = cl) := by
  have hnd2 : (candidatesOf cm mn).Nodup := candidatesOf_nodup cm mn hnd
  rcases hsh : candidatesOf cm mn with _ | ⟨c1, _ | ⟨c2, rest⟩⟩
  · rw [hsh] at hc; simp at hc
  · rw [hsh] at hc; simp at hc
  · rw [hsh] at hnd2
    have hfb : fallbackClient cm cb mn =
        (match (c1 :: c2 :: rest).filter (fun c =>
            !(((dlookup cb c).getD []).any (fun b => (c1 :: c2 :: rest).contains b))) with
          | [r] => some r
          | _ => none) := by
      unfold fallbackClient
      rw [hsh]
    rw [hfb]
    rw [match_singleton_some]
    rw [filter_singleton_iff _ _ hnd2 cl]
    constructor
    · rintro ⟨h1, h2, h3⟩
      refine ⟨h1, ?_, ?_⟩
      · intro b hb hbc
        rw [Bool.not_eq_true', List.any_eq_false] at h2
        exact absurd (List.elem_iff.mpr hbc) (by simpa using h2 b hb)
      · intro c' hc' hroot
        refine h3 c' hc' ?_
        rw [Bool.not_eq_true', List.any_eq_false]
        intro b hb
        have := hroot b hb
        simpa [List.elem_iff] using this
    · rintro ⟨h1, h2, h3⟩
      refine ⟨h1, ?_, ?_⟩
      · rw [Bool.not_eq_true', List.any_eq_false]
        intro b hb
        have := h2 b hb
        simpa [List.elem_iff] using this
      · intro x hx hpx
        refine h3 x hx ?_
        intro b hb hbc
        rw [Bool.not_eq_true', List.any_eq_false] at hpx
        exact absurd (List.elem_iff.mpr hbc) (by simpa using hpx b hb)

/-- C6 witness input: the spec's `ServiceA` / `ServiceB` scenario, where
`ServiceB` derives from `ServiceA` and both expose `get`. -/
def c6CM : List (String × List String) :=
  [("ServiceA", ["get"]), ("ServiceB", ["get", "put"])]

def c6CB : List (String × List String) := [("ServiceB", ["ServiceA"])]

/-- C6 witness: two candidates forming one inheritance chain; the theorem
yields attribution to the unique root `ServiceA`. -/
theorem c6_witness :
    (c6CM.map Prod.fst).Nodup ∧ 1 < (candidatesOf c6CM "get").length ∧
      fallbackClient c6CM c6CB "get" = some "ServiceA" :=
  ⟨by decide, by decide,
   (c6_fallback_unique_root c6CM c6CB "get" "ServiceA" (by decide) (by decide)).mpr
     (by decide)⟩

/-! ## Claim C7: inherited-coverage propagation in the uncovered list -/

theorem c7_via_bases (cm : List (String × List String)) (seen_ops : List String)
    (relPairs : List (String × String)) (X Y f : String)
    (hrel : (X, Y) ∈ relPairs) (hseen : (X ++ "." ++ f) ∈ seen_ops) :
    ∀ u ∈ buildUncovered cm seen_ops relPairs, ¬(u.client = Y ∧ u.method = f) := by
  intro u hu
  rintro ⟨hcl, hm⟩
  simp only [buildUncovered, List.mem_flatMap, List.mem_filterMap] at hu
  rcases hu with ⟨p, hp, method, hmeth, heq⟩
  split_ifs at heq with h1 h2
  case _ =>
    have hu' := Option.some.inj heq
    have hp1 : p.1 = Y := by rw [← hu'] at hcl; exact hcl
    have hmf : method = f := by rw [← hu'] at hm; exact hm
    apply h2
    rw [Bool.or_eq_true]
    left
    rw [List.any_eq_true]
    refine ⟨(X, Y), ?_, ?_⟩
    · rw [List.mem_filter]
      exact ⟨hrel, by simp [hp1]⟩
    · rw [hmf]
      exact List.elem_iff.mpr hseen

theorem c7_via_subs (cm : List (String × List String)) (seen_ops : List String)
    (relPairs : List (String × String)) (X Y f : String)
    (hrel : (X, Y) ∈ relPairs) (hseen : (Y ++ "." ++ f) ∈ seen_ops) :
    ∀ u ∈ buildUncovered cm seen_ops relPairs, ¬(u.client = X ∧ u.method = f) := by
  intro u hu
  rintro ⟨hcl, hm⟩
  simp only [buildUncovered, List.mem_flatMap, List.mem_filterMap] at hu
  rcases hu with ⟨p, hp, method, hmeth, heq⟩
  split_ifs at heq with h1 h2
  case _ =>
    have hu' := Option.some.inj heq
    have hp1 : p.1 = X := by rw [← hu'] at hcl; exact hcl
    have hmf : method = f := by rw [← hu'] at hm; exact hm
    apply h2
    rw [Bool.or_eq_true]
    right
    rw [List.any_eq_true]
    refine ⟨(X, Y), ?_, ?_⟩
    · rw [List.mem_filter]
      exact ⟨hrel, by simp [hp1]⟩
    · rw [hmf]
      exact List.elem_iff.mpr hseen

/-- C7.  Inherited-coverage propagation: when class `B`'s declared base `A`
is recorded in the base/subclass relation, covering `A.f` keeps `(B, f)`
out of the uncovered list, and covering `B.f` keeps `(A, f)` out of it. -/
theorem c7_inherited_coverage (api : Api) (cm : List (String × List String))
    (seen_ops : List String) (A B f : String)
    (hrel : (A, B) ∈ buildRelPairs api cm) :
    ((A ++ "." ++ f) ∈ seen_ops →
      ∀ u ∈ buildUncovered cm seen_ops (buildRelPairs api cm),
        ¬(u.client = B ∧ u.method = f)) ∧
    ((B ++ "." ++ f) ∈ seen_ops →
      ∀ u ∈ buildUncovered cm seen_ops (buildRelPairs api cm),
        ¬(u.client = A ∧ u.method = f)) :=
  ⟨fun hseen => c7_via_bases cm seen_ops (buildRelPairs api cm) A B f hrel hseen,
   fun hseen => c7_via_subs cm seen_ops (buildRelPairs api cm) A B f hrel hseen⟩

/-! Witness-construction helpers: plain method and class records. -/

def mkMeth (nm : String) (ret : Option String) : FuncInfo :=
  { name := nm, sig := "", ret := ret, doc := none, isAsync := false, entryPoint := false,
    reExportedFrom := none, isClassmethod := false, isStaticmethod := false,
    isProp := false, isOverload := false }

def mkCls (nm : String) (base : Option String) (ep : Bool) (ms : List FuncInfo) : ClassInfo :=
  { name := nm, base := base, doc := none, entryPoint := ep, reExportedFrom := none,
    methods := ms, properties := [] }

def c7Module : ModuleInfo :=
  { name := "m"
    classes := [mkCls "Client" none true [mkMeth "send" none],
                mkCls "SubClient" (some "Client") false [mkMeth "send" none]]
    functions := [] }

def c7Api : Api := { modules := [c7Module] }

def c7CM : List (String × List String) := [("Client", ["send"]), ("SubClient", ["send"])]

def c7Seen : List String := ["Client.send"]

/-- C7 witness: `SubClient` derives from `Client`; with `Client.send`
covered, `(SubClient, send)` is kept out of the uncovered list. -/
theorem c7_witness :
    ("Client", "SubClient") ∈ buildRelPairs c7Api c7CM ∧
      ("Client" ++ "." ++ "send") ∈ c7Seen ∧
      ∀ u ∈ buildUncovered c7CM c7Seen (buildRelPairs c7Api c7CM),
        ¬(u.client = "SubClient" ∧ u.method = "send") :=
  ⟨by decide, by decide,
   (c7_inherited_coverage c7Api c7CM c7Seen "Client" "SubClient" "send" (by decide)).1
     (by decide)⟩

/-! ## Claim C5: the reachability closure is a fixed point -/

theorem bfsLoop_closed_aux (A : List ClassInfo) (R : List (String × List String))
    (D : List (String × List ClassInfo)) :
    ∀ (N : Nat) (r q : List String),
      ((bfsUniverse R D).toFinset.filter (fun u => u ∉ r)).card < N →
      (∀ x ∈ r, x ∉ q → ∀ n ∈ bfsStepList A R D x, n ∈ r) →
      ∀ c ∈ bfsLoop A R D r q, ∀ n ∈ bfsStepList A R D c, n ∈ bfsLoop A R D r q := by
  intro N
  induction N with
  | zero => intro r q hN; exact absurd hN (Nat.not_lt_zero _)
  | succ N' ihN =>
    intro r q
    induction q generalizing r with
    | nil =>
      intro hN hInv c hc n hn
      have hr : bfsLoop A R D r [] = r := by simp [bfsLoop]
      rw [hr] at hc ⊢
      exact hInv c hc (List.not_mem_nil c) n hn
    | cons current rest ihq =>
      intro hN hInv
      have hInv' : ∀ x ∈ (enqueueNew r rest (bfsStepList A R D current)).1,
          x ∉ (enqueueNew r rest (bfsStepList A R D current)).2 →
          ∀ n ∈ bfsStepList A R D x,
            n ∈ (enqueueNew r rest (bfsStepList A R D current)).1 := by
        intro x hx hxq n hn
        by_cases hxr : x ∈ r
        · by_cases hxc : x = current
          · subst hxc
            exact enqueueNew_mem_of_mem_arg _ _ _ hn
          · have hxrest : x ∉ rest := fun hr => hxq (enqueueNew_snd_grows _ _ _ x hr)
            have hxq0 : x ∉ current :: rest := by
              intro hmem
              rcases List.mem_cons.mp hmem with h | h
              · exact hxc h
              · exact hxrest h
            exact enqueueNew_mono _ _ _ (hInv x hxr hxq0 n hn)
        · exact absurd (enqueueNew_new_mem_snd _ _ _ x hx hxr) hxq
      simp only [bfsLoop]
      rcases enqueueNew_cases (bfsStepList A R D current) r rest with heq | ⟨m, hm1, hm2, hm3⟩
      · rw [heq] at hInv' ⊢
        exact ihq r hN hInv'
      · have hmU : m ∈ bfsUniverse R D := bfsStepList_subset A R D current m hm1
        have hlt := bfs_card_decrease (bfsUniverse R D) r
          (enqueueNew r rest (bfsStepList A R D current)).1 m
          (fun x hx => enqueueNew_mono _ _ _ hx) hmU hm2 hm3
        exact ihN _ _ (by omega) hInv'

/-- C5.  The reachability closure is a fixed point: expanding any already
reachable class key by one BFS step (its reference edges and its derived
subclasses, when a class of that key exists) adds no new class key. -/
theorem c5_reachability_fixed_point (api : Api) (c n : String)
    (hc : c ∈ computeReachable api)
    (hn : n ∈ bfsStepList (allClasses api) (referencesOf api) (derivedByBase api) c) :
    n ∈ computeReachable api := by
  unfold computeReachable at hc ⊢
  refine bfsLoop_closed_aux (allClasses api) (referencesOf api) (derivedByBase api)
    (((bfsUniverse (referencesOf api) (derivedByBase api)).toFinset.filter
        (fun u => u ∉ (enqueueNew [] []
          ((rootClassesOf api).map classKey)).1)).card + 1)
    _ _ (Nat.lt_succ_self _) ?_ c hc n hn
  intro x hx hxq n' _
  exact absurd (enqueueNew_new_mem_snd _ _ _ x hx (List.not_mem_nil x)) hxq

/-- C5 witness input: an entry-point `Client` whose method returns
`SubResult`, which is therefore reachable via a reference edge. -/
def c5Module : ModuleInfo :=
  { name := "m"
    classes := [mkCls "Client" none true [mkMeth "send" (some "SubResult")],
                mkCls "SubResult" none false [mkMeth "value" none]]
    functions := [] }

def c5Api : Api := { modules := [c5Module] }

/-- C5 witness: `Client` is reachable, its expansion step contains
`SubResult`, and the fixed-point theorem places `SubResult` in the
reachable set. -/
theorem c5_witness :
    "Client" ∈ computeReachable c5Api ∧
      "SubResult" ∈ bfsStepList (allClasses c5Api) (referencesOf c5Api)
        (derivedByBase c5Api) "Client" ∧
      "SubResult" ∈ computeReachable c5Api :=
  ⟨by simp [computeReachable, bfsLoop, enqueueNew, bfsStepList, allClasses, referencesOf,
        derivedByBase, rootClassesOf, referencedByOf, operationTypes, isRootClass,
        c5Api, c5Module, mkCls, mkMeth, classKey, bracketHead, pySplit, splitCharAux,
        get_referenced_types, allTypeNames, tokenizeIdents, tokenizeGo, dinsert, dlookup,
        dappend, childNameOf],
   by decide,
   c5_reachability_fixed_point c5Api "Client" "SubResult"
     (by simp [computeReachable, bfsLoop, enqueueNew, bfsStepList, allClasses, referencesOf,
           derivedByBase, rootClassesOf, referencedByOf, operationTypes, isRootClass,
           c5Api, c5Module, mkCls, mkMeth, classKey, bracketHead, pySplit, splitCharAux,
           get_referenced_types, allTypeNames, tokenizeIdents, tokenizeGo, dinsert, dlookup,
           dappend, childNameOf])
     (by decide)⟩

/-! ## Claim C10: the implicit report invariant

Both attribution strategies append to `covered` only under the
`key not in seen_ops` guard and immediately record the key, so covered keys
are distinct and all in `seen_ops`; the uncovered scan keeps only keys not
in `seen_ops`. -/

/-- The `f"{client}.{method}"` key of a covered operation. -/
def opKey (e : CoveredOp) : String := e.client ++ "." ++ e.method

/-- The loop invariant of the attribution state: every covered entry's key
is recorded in `seen_ops`, and covered keys are distinct. -/
def pairInv (cs : List CoveredOp × List String) : Prop :=
  (∀ e ∈ cs.1, opKey e ∈ cs.2) ∧ (cs.1.map opKey).Nodup

theorem tryRecordOp_inv (st : List CoveredOp × List String) (client mname relPath : String)
    (line : Nat) (h : pairInv st) : pairInv (tryRecordOp st client mname relPath line) := by
  unfold tryRecordOp
  by_cases hc : st.2.contains (client ++ "." ++ mname)
  · simp only [hc, if_true]
    exact h
  · simp only [hc, Bool.false_eq_true, if_false]
    have hnotin : (client ++ "." ++ mname) ∉ st.1.map opKey := by
      intro hmem
      rcases List.mem_map.mp hmem with ⟨e, he, hkey⟩
      have := h.1 e he
      rw [hkey] at this
      exact hc (List.elem_iff.mpr this)
    constructor
    · intro e he
      rcases List.mem_append.mp he with he' | he'
      · exact List.mem_append_left _ (h.1 e he')
      · rw [List.mem_singleton.mp he']
        exact List.mem_append_right _ (List.mem_singleton.mpr rfl)
    · rw [List.map_append]
      have hmap : ([{ client := client, method := mname, file := relPath, line := line }] :
          List CoveredOp).map opKey = [client ++ "." ++ mname] := by
        simp [opKey]
      rw [hmap]
      exact h.2.append (List.nodup_singleton _)
        (fun a ha hb => hnotin (List.mem_singleton.mp hb ▸ ha))

theorem applyFallback_inv (P : UsageParams) (st : List CoveredOp × List String)
    (mname relPath : String) (line : Nat) (h : pairInv st) :
    pairInv (applyFallback P st mname relPath line) := by
  unfold applyFallback
  cases fallbackClient P.client_methods P.class_bases mname with
  | some cn => exact tryRecordOp_inv _ _ _ _ _ h
  | none => exact h

theorem visitCallNode_inv (P : UsageParams) (vt : List (String × String)) (rp : String)
    (st : List CoveredOp × List String) (f : SExpr) (ln : Nat) (h : pairInv st) :
    pairInv (visitCallNode P vt rp st f ln) := by
  unfold visitCallNode
  split
  · exact h
  · split
    · split
      · split
        · exact tryRecordOp_inv _ _ _ _ _ h
        · exact applyFallback_inv _ _ _ _ _ h
      · exact applyFallback_inv _ _ _ _ _ h
    · exact applyFallback_inv _ _ _ _ _ h

theorem processNode_inv (P : UsageParams) (vt : List (String × String)) (rp : String)
    (st : List CoveredOp × List String) (node : SampleNode) (h : pairInv st) :
    pairInv (processNode P vt rp st node) := by
  cases node with
  | callNode f ln => exact visitCallNode_inv P vt rp st f ln h
  | assignNode t v => exact h
  | annAssignNode t a v => exact h
  | awaitNode => exact h
  | asyncWithNode => exact h
  | asyncForNode => exact h
  | tryNode => exact h
  | otherNode => exact h

theorem foldl_processNode_inv (P : UsageParams) (vt : List (String × String)) (rp : String)
    (nodes : List SampleNode) :
    ∀ (st : List CoveredOp × List String), pairInv st →
      pairInv (nodes.foldl (processNode P vt rp) st) := by
  induction nodes with
  | nil => intro st h; exact h
  | cons n ns ih => intro st h; exact ih _ (processNode_inv P vt rp st n h)

theorem processFile_inv (P : UsageParams) (st : ScanState) (f : SampleFile)
    (h : pairInv (st.covered, st.seen_ops)) :
    pairInv ((processFile P st f).covered, (processFile P st f).seen_ops) := by
  unfold processFile
  by_cases hex : usageExcludes f.parts
  · simp only [hex, if_true]
    exact h
  · simp only [hex, Bool.false_eq_true, if_false]
    cases hp : f.parsed with
    | none => exact h
    | some nodes =>
      exact foldl_processNode_inv P _ _ nodes (st.covered, st.seen_ops) h

theorem foldl_processFile_inv (P : UsageParams) :
    ∀ (samples : List SampleFile) (st : ScanState),
      pairInv (st.covered, st.seen_ops) →
      pairInv ((samples.foldl (processFile P) st).covered,
        (samples.foldl (processFile P) st).seen_ops) := by
  intro samples
  induction samples with
  | nil => intro st h; exact h
  | cons f fs ih => intro st h; exact ih _ (processFile_inv P st f h)

theorem buildUncovered_not_seen (cm : List (String × List String)) (seen : List String)
    (rel : List (String × String)) :
    ∀ u ∈ buildUncovered cm seen rel,
      seen.contains (u.client ++ "." ++ u.method) = false := by
  intro u hu
  simp only [buildUncovered, List.mem_flatMap, List.mem_filterMap] at hu
  rcases hu with ⟨p, hp, method, hmeth, heq⟩
  split_ifs at heq with h1 h2
  case _ =>
    have hu' := Option.some.inj heq
    rw [← hu']
    show seen.contains (p.1 ++ "." ++ method) = false
    cases hx : seen.contains (p.1 ++ "." ++ method) with
    | false => rfl
    | true => exact absurd hx h1

/-- C10.  Implicit report invariant: in every `analyze_usage` result, no two
covered entries share a `(client, method)` pair, and no pair occurs in both
the covered and the uncovered list. -/
theorem c10_report_invariant (samples : List SampleFile) (api : Api) :
    (analyze_usage samples api).covered.Pairwise
        (fun e1 e2 => ¬(e1.client = e2.client ∧ e1.method = e2.method)) ∧
      ∀ e ∈ (analyze_usage samples api).covered,
        ∀ u ∈ (analyze_usage samples api).uncovered,
          ¬(e.client = u.client ∧ e.method = u.method) := by
  unfold analyze_usage
  by_cases hcm : (clientMethodsOf api).isEmpty
  · simp [hcm]
  · simp only [hcm, Bool.false_eq_true, if_false]
    have hinit : pairInv (initScanState.covered, initScanState.seen_ops) := by
      constructor
      · intro e he
        simp [initScanState] at he
      · simp [initScanState]
    have hinv : pairInv ((finalScanState samples api).covered,
        (finalScanState samples api).seen_ops) :=
      foldl_processFile_inv _ samples initScanState hinit
    constructor
    · have hnd := hinv.2
      have hpw := (List.pairwise_map).mp hnd
      exact hpw.imp (fun hne hcm' =>
        hne (by rw [opKey, opKey, hcm'.1, hcm'.2]))
    · intro e he u hu
      rintro ⟨hc, hm⟩
      have hk : opKey e ∈ (finalScanState samples api).seen_ops := hinv.1 e he
      have hns := buildUncovered_not_seen _ _ _ u hu
      rw [opKey, hc, hm] at hk
      have hk' : (finalScanState samples api).seen_ops.contains
          (u.client ++ "." ++ u.method) = true := List.elem_iff.mpr hk
      rw [hk'] at hns
      exact Bool.noConfusion hns

/-! ## Claim C9: an unparseable sample file is counted, skipped, isolated

The file counter is incremented before parsing; a parse failure
(`SyntaxError` / `UnicodeDecodeError`, modelled by `parsed = none`)
contributes nothing else, and the loop continues with the remaining
files. -/

/-- What one sample file adds to the file counter. -/
def fileCountInc (f : SampleFile) : Nat := if usageExcludes f.parts then 0 else 1

theorem processFile_unparsed (P : UsageParams) (st : ScanState) (f : SampleFile)
    (hex : usageExcludes f.parts = false) (hp : f.parsed = none) :
    processFile P st f = { st with fileCount := st.fileCount + 1 } := by
  unfold processFile
  simp [hex, hp]

theorem processFile_fileCount (P : UsageParams) (st : ScanState) (f : SampleFile) :
    (processFile P st f).fileCount = st.fileCount + fileCountInc f := by
  unfold processFile fileCountInc
  by_cases hex : usageExcludes f.parts
  · simp [hex]
  · simp only [hex, Bool.false_eq_true, if_false]
    cases hp : f.parsed with
    | none => rfl
    | some nodes => rfl

theorem processFile_split (P : UsageParams) (st : ScanState) (f : SampleFile) (n : Nat) :
    processFile P { st with fileCount := n } f =
      { processFile P st f with fileCount := n + fileCountInc f } := by
  unfold processFile fileCountInc
  by_cases hex : usageExcludes f.parts
  · simp [hex]
  · simp only [hex, Bool.false_eq_true, if_false]
    cases hp : f.parsed with
    | none => rfl
    | some nodes => rfl

theorem foldl_processFile_bump (P : UsageParams) :
    ∀ (fs : List SampleFile) (st : ScanState) (d : Nat),
      fs.foldl (processFile P) { st with fileCount := st.fileCount + d } =
        { fs.foldl (processFile P) st with
            fileCount := (fs.foldl (processFile P) st).fileCount + d } := by
  intro fs
  induction fs with
  | nil => intro st d; rfl
  | cons f fs ih =>
    intro st d
    simp only [List.foldl_cons]
    rw [processFile_split]
    have harith : st.fileCount + d + fileCountInc f =
        (processFile P st f).fileCount + d := by
      rw [processFile_fileCount]
      omega
    rw [harith]
    exact ih (processFile P st f) d

/-- C9.  A sample file that fails to parse is skipped without aborting the
pass: when the analysis reaches the file loop (some client methods exist),
inserting an unparseable, non-excluded file anywhere in the corpus changes
the result only by incrementing the scanned-file count; every other file
still contributes exactly as before. -/
theorem c9_unparseable_file_isolated (fs1 fs2 : List SampleFile) (bad : SampleFile)
    (api : Api) (hex : usageExcludes bad.parts = false) (hp : bad.parsed = none)
    (hcm : (clientMethodsOf api).isEmpty = false) :
    analyze_usage (fs1 ++ bad :: fs2) api =
      { analyze_usage (fs1 ++ fs2) api with
          fileCount := (analyze_usage (fs1 ++ fs2) api).fileCount + 1 } := by
  have hfinal : finalScanState (fs1 ++ bad :: fs2) api =
      { finalScanState (fs1 ++ fs2) api with
          fileCount := (finalScanState (fs1 ++ fs2) api).fileCount + 1 } := by
    unfold finalScanState
    rw [List.foldl_append, List.foldl_append]
    simp only [List.foldl_cons]
    rw [processFile_unparsed _ _ _ hex hp]
    exact foldl_processFile_bump _ fs2 _ 1
  unfold analyze_usage
  simp only [hcm, Bool.false_eq_true, if_false]
  rw [hfinal]

def c9Module : ModuleInfo :=
  { name := "m"
    classes := [mkCls "Client" none true [mkMeth "send" none]]
    functions := [] }

def c9Api : Api := { modules := [c9Module] }

def c9Bad : SampleFile := { parts := ["sample.py"], parsed := none }

/-- C9 witness: a one-file corpus holding only an unparseable sample, with
the theorem applied at that input. -/
theorem c9_witness :
    usageExcludes c9Bad.parts = false ∧ c9Bad.parsed = none ∧
      (clientMethodsOf c9Api).isEmpty = false ∧
      analyze_usage ([] ++ c9Bad :: []) c9Api =
        { analyze_usage ([] ++ []) c9Api with
            fileCount := (analyze_usage ([] ++ []) c9Api).fileCount + 1 } := by
  have hreach : computeReachable c9Api = ["Client"] := by
    simp [computeReachable, bfsLoop, enqueueNew, bfsStepList, allClasses, referencesOf,
      derivedByBase, rootClassesOf, referencedByOf, operationTypes, isRootClass,
      c9Api, c9Module, mkCls, mkMeth, classKey, bracketHead, pySplit, splitCharAux,
      get_referenced_types, allTypeNames, tokenizeIdents, tokenizeGo, dinsert, dlookup,
      dappend, childNameOf]
  have hcm : (clientMethodsOf c9Api).isEmpty = false := by
    unfold clientMethodsOf usageClasses
    rw [hreach]
    decide
  exact ⟨by decide, rfl, hcm,
    c9_unparseable_file_isolated [] [] c9Bad c9Api (by decide) rfl hcm⟩

end ExtractApi
